import Mathlib

/-!
# farbot: realtime-safe synchronisation primitives

A shallow embedding of `spsc_fifo.hpp`, `RealtimeMutatable.tcc` and
`NonRealtimeMutatable.tcc`, followed by theorems about the embedded code.

Conventions of the embedding

* `std::uint32_t` counters are natural numbers reduced modulo `2 ^ 32`.
* A `T*` is a natural number; `0` is `nullptr`.
* Atomic operations executed one after another are plain state updates; the
  fine-grained interleavings of `RealtimeMutatable` are a labelled step function.
* A loop that can spin is given fuel and returns `none` when the fuel is exhausted.
-/

namespace farbot

/-! ## Definitions: `spsc_fifo.hpp` -/

/-- Modulus of `std::uint32_t` arithmetic. -/
def u32 : Nat := 2 ^ 32

/-- Data members of `farbot::fifo<T>` (spsc_fifo.hpp:112-114): the slot vector (each slot an
atomic `T*`, `0` for `nullptr`), the mask and the two 32-bit counters. -/
structure fifo where
  slots : List Nat
  slot_mask : Nat
  readpos : Nat
  writepos : Nat
deriving DecidableEq, Repr

/-- Member initialiser `slot_mask (capacity - 1)` (spsc_fifo.hpp:68), in `std::uint32_t`
arithmetic: for `capacity = 0` the subtraction wraps to `2 ^ 32 - 1`. -/
def fifo.maskOf (capacity : Nat) : Nat := (capacity + u32 - 1) % u32

/-- Condition of `assert ((capacity & slot_mask) == 0)` (spsc_fifo.hpp:74). -/
def fifo.capacityAssert (capacity : Nat) : Bool := capacity &&& fifo.maskOf capacity == 0

/-- Constructor `fifo (std::uint32_t capacity)` (spsc_fifo.hpp:66-82). `none` is a failed
assertion. Every slot is stored `nullptr`; both counters start at `0`. The initialisers of
`storage`, `freelist` and `storage_mask` name members the class does not declare and no
method reads them; they are left out. -/
def fifo.construct (capacity : Nat) : Option fifo :=
  if fifo.capacityAssert capacity then
    some { slots := List.replicate capacity 0, slot_mask := fifo.maskOf capacity,
           readpos := 0, writepos := 0 }
  else none

/-- Loop of `fifo::push` (spsc_fifo.hpp:86-93) with `n` iterations left. Each iteration does
`writepos.fetch_add (1) & slot_mask`, then a compare-exchange of the slot from `nullptr`
to `value`; the first success returns `true`. -/
def fifo.pushLoop : Nat → fifo → Nat → Bool × fifo
  | 0, s, _ => (false, s)
  | n + 1, s, value =>
    let pos := s.writepos &&& s.slot_mask
    let s1 := { s with writepos := (s.writepos + 1) % u32 }
    if s1.slots.getD pos 0 = 0 then
      (true, { s1 with slots := s1.slots.set pos value })
    else fifo.pushLoop n s1 value

/-- Method `bool push (T* value)` (spsc_fifo.hpp:84-96): at most `slots.size ()` probes. -/
def fifo.push (s : fifo) (value : Nat) : Bool × fifo :=
  fifo.pushLoop s.slots.length s value

/-- Loop of `fifo::pop` (spsc_fifo.hpp:100-106) with `n` iterations left. Each iteration does
`readpos.fetch_add (1) & slot_mask`, then `result = slots[pos].exchange (nullptr)`; the first
non-null `result` returns `true`. The second component is the final value of `result`. -/
def fifo.popLoop : Nat → fifo → Nat → Bool × Nat × fifo
  | 0, s, result => (false, result, s)
  | n + 1, s, _ =>
    let pos := s.readpos &&& s.slot_mask
    let s1 := { s with readpos := (s.readpos + 1) % u32 }
    let result := s1.slots.getD pos 0
    let s2 := { s1 with slots := s1.slots.set pos 0 }
    if result ≠ 0 then (true, result, s2) else fifo.popLoop n s2 result

/-- Method `bool pop (T*& result)` (spsc_fifo.hpp:98-109); `result` is the caller's variable
on entry. -/
def fifo.pop (s : fifo) (result : Nat) : Bool × Nat × fifo :=
  fifo.popLoop s.slots.length s result

/-- One call on a fifo, made by the single producer or the single consumer. -/
inductive FifoOp where
  | push (value : Nat)
  | pop
deriving DecidableEq, Repr

/-- Record of a sequential run: the current object, the pointers handed out by successful
pops (oldest first) and the pointers whose push returned `true` (oldest first). -/
structure FifoRun where
  state : fifo
  popped : List Nat
  pushed : List Nat
deriving DecidableEq, Repr

/-- Executes one call and records its outcome. -/
def FifoRun.step (t : FifoRun) : FifoOp → FifoRun
  | .push v =>
    let r := t.state.push v
    { state := r.2, popped := t.popped, pushed := if r.1 then t.pushed ++ [v] else t.pushed }
  | .pop =>
    let r := t.state.pop 0
    { state := r.2.2, popped := if r.1 then t.popped ++ [r.2.1] else t.popped,
      pushed := t.pushed }

/-- Executes the calls of `ops` one after another. -/
def FifoRun.exec (t : FifoRun) (ops : List FifoOp) : FifoRun := ops.foldl FifoRun.step t

/-- Pointers still stored in the slots, read in ring order starting at
`readpos & slot_mask`. -/
def fifo.ringContents (s : fifo) : List Nat :=
  ((List.range s.slots.length).map
    (fun i => s.slots.getD ((s.readpos + i) &&& s.slot_mask) 0)).filter (fun p => p != 0)

/-- Results of pushing the pointers of `vs` one after another, with the final object. -/
def fifo.pushAll (s : fifo) : List Nat → List Bool × fifo
  | [] => ([], s)
  | v :: vs =>
    let r := s.push v
    let rest := fifo.pushAll r.2 vs
    (r.1 :: rest.1, rest.2)

/-- A call whose pointer argument, if it has one, is not `nullptr`. -/
def FifoOp.NonNull : FifoOp → Prop
  | .push v => v ≠ 0
  | .pop => True

instance FifoOp.decidableNonNull : (op : FifoOp) → Decidable op.NonNull
  | .push v => inferInstanceAs (Decidable (v ≠ 0))
  | .pop => isTrue trivial

/-- Run record of a fifo on which no call has been made yet. -/
def FifoRun.fresh (s : fifo) : FifoRun := { state := s, popped := [], pushed := [] }

/-- Slot index of the probe made `i` iterations after the counter had the value `x`:
the counter has been incremented `i` times modulo `2 ^ 32` and is then masked. -/
def fifo.probe (x i mask : Nat) : Nat := ((x + i) % u32) &&& mask

/-- Well-formed object of capacity `2 ^ k`: what the constructor establishes and every
method keeps, with arbitrary slot contents and arbitrary 32-bit counters. -/
structure fifo.WF (k : Nat) (s : fifo) : Prop where
  size : s.slots.length = 2 ^ k
  mask : s.slot_mask = 2 ^ k - 1
  rpos : s.readpos < u32
  wpos : s.writepos < u32

/-- Ring invariant of a fifo used by one producer and one consumer whose calls do not
overlap: the non-null slots are the elements of `q`, stored consecutively from
`readpos & slot_mask`, and `writepos & slot_mask` is the slot after the last one. -/
structure fifo.Holds (k : Nat) (s : fifo) (q : List Nat) : Prop where
  wf : s.WF k
  len : q.length ≤ 2 ^ k
  next : s.writepos % 2 ^ k = (s.readpos + q.length) % 2 ^ k
  cells : ∀ i, i < 2 ^ k → s.slots.getD ((s.readpos + i) % 2 ^ k) 0 = q.getD i 0
  nonnull : ∀ x ∈ q, x ≠ 0

/-! ## Definitions: `RealtimeMutatable.hpp`, `RealtimeMutatable.tcc` -/

/-- Enumerator `INDEX_BIT = (1 << 0)` (RealtimeMutatable.hpp:99). -/
def INDEX_BIT : Nat := 1

/-- Enumerator `BUSY_BIT = (1 << 1)` (RealtimeMutatable.hpp:100). -/
def BUSY_BIT : Nat := 2

/-- Enumerator `NEWDATA_BIT = (1 << 2)` (RealtimeMutatable.hpp:101). -/
def NEWDATA_BIT : Nat := 4

/-- Bit pattern of `~BUSY_BIT` in a 32-bit `int`. -/
def NOT_BUSY : Nat := 4294967293

/-- Data members of `farbot::RealtimeMutatable<T>` (RealtimeMutatable.hpp:104-109): the
control word (bit pattern of the `std::atomic<int>`), the two slots of `data`, the
realtime thread's `realtimeCopy`, and whether `nonRealtimeLock` is held. -/
structure RealtimeMutatable (T : Type) where
  control : Nat
  data0 : T
  data1 : T
  realtimeCopy : T
  locked : Bool
deriving DecidableEq, Repr

namespace RealtimeMutatable

variable {T : Type}

/-- Constructor `RealtimeMutatable (const T & obj)` (RealtimeMutatable.tcc:12), with the
default member initialiser `control = {0}`. -/
def construct (obj : T) : RealtimeMutatable T :=
  { control := 0, data0 := obj, data1 := obj, realtimeCopy := obj, locked := false }

/-- Read of `data[i]` for an index `i` in `{0, 1}`. -/
def dataAt (s : RealtimeMutatable T) (i : Nat) : T := if i = 0 then s.data0 else s.data1

/-- Assignment `data[i] = v` for an index `i` in `{0, 1}`. -/
def setData (s : RealtimeMutatable T) (i : Nat) (v : T) : RealtimeMutatable T :=
  if i = 0 then { s with data0 := v } else { s with data1 := v }

/-- Method `realtimeAcquire` (RealtimeMutatable.tcc:38-41): the reference it returns
designates `realtimeCopy`; this is the value read through it. -/
def realtimeAcquire (s : RealtimeMutatable T) : T := s.realtimeCopy

/-- Assignment of `v` through the reference returned by `realtimeAcquire`. -/
def realtimeAssign (s : RealtimeMutatable T) (v : T) : RealtimeMutatable T :=
  { s with realtimeCopy := v }

/-- First statement of `realtimeRelease` (RealtimeMutatable.tcc:46):
`idx = control.fetch_or (BUSY_BIT) & INDEX_BIT`. -/
def fetchOrBusy (s : RealtimeMutatable T) : Nat × RealtimeMutatable T :=
  (s.control &&& INDEX_BIT, { s with control := s.control ||| BUSY_BIT })

/-- Second statement of `realtimeRelease` (RealtimeMutatable.tcc:47):
`data[idx] = realtimeCopy`. -/
def copyToSlot (s : RealtimeMutatable T) (idx : Nat) : RealtimeMutatable T :=
  s.setData idx s.realtimeCopy

/-- Third statement of `realtimeRelease` (RealtimeMutatable.tcc:48):
`control.store ((idx & INDEX_BIT) | NEWDATA_BIT)`. -/
def storeControl (s : RealtimeMutatable T) (idx : Nat) : RealtimeMutatable T :=
  { s with control := (idx &&& INDEX_BIT) ||| NEWDATA_BIT }

/-- Method `realtimeRelease` (RealtimeMutatable.tcc:43-49), its three statements executed
without interruption. -/
def realtimeRelease (s : RealtimeMutatable T) : RealtimeMutatable T :=
  let r := s.fetchOrBusy
  (r.2.copyToSlot r.1).storeControl r.1

/-- One iteration of the do-while loop of `nonRealtimeAcquire` (RealtimeMutatable.tcc:62-69)
entered with the local `current`: it clears `BUSY_BIT` in `current`, computes `newValue`
and attempts the compare-exchange, which fails when `control` differs from `current` or,
being weak, when `spurious` is set. The result is `(succeeded, current, newValue, object)`;
on failure `current` has been reloaded from `control`. -/
def casAttempt (s : RealtimeMutatable T) (current : Nat) (spurious : Bool) :
    Bool × Nat × Nat × RealtimeMutatable T :=
  let cur := current &&& NOT_BUSY
  let newValue := (cur ^^^ INDEX_BIT) &&& INDEX_BIT
  if s.control = cur ∧ spurious = false then (true, cur, newValue, { s with control := newValue })
  else (false, s.control, newValue, s)

/-- The do-while loop of `nonRealtimeAcquire` with `fuel` iterations allowed and no other
thread running: the compare-exchange fails only on a value mismatch. Returns `newValue`
and the object, or `none` if the loop is still spinning when the fuel is used up. -/
def casLoop : Nat → RealtimeMutatable T → Nat → Option (Nat × RealtimeMutatable T)
  | 0, _, _ => none
  | fuel + 1, s, current =>
    let r := s.casAttempt current false
    if r.1 then some (r.2.2.1, r.2.2.2) else casLoop fuel r.2.2.2 r.2.1

/-- Last statements of `nonRealtimeAcquire` (RealtimeMutatable.tcc:75-77): the index of
the slot handed to the reader. -/
def nonRealtimeIndex (current : Nat) : Nat := (current &&& INDEX_BIT) ^^^ 1

/-- Method `nonRealtimeAcquire` (RealtimeMutatable.tcc:51-78) with no other thread running.
`none` when `lock ()` would block because the mutex is held, or when the loop is still
spinning after `fuel` iterations. Returns the value of the slot it designates. -/
def nonRealtimeAcquire (fuel : Nat) (s : RealtimeMutatable T) :
    Option (T × RealtimeMutatable T) :=
  if s.locked then none
  else
    let s1 := { s with locked := true }
    let current := s1.control
    if current &&& NEWDATA_BIT ≠ 0 then
      match casLoop fuel s1 current with
      | none => none
      | some (newValue, s2) => some (s2.dataAt (nonRealtimeIndex newValue), s2)
    else some (s1.dataAt (nonRealtimeIndex current), s1)

/-- Method `nonRealtimeRelease` (RealtimeMutatable.tcc:80-84): `nonRealtimeLock.unlock ()`. -/
def nonRealtimeRelease (s : RealtimeMutatable T) : RealtimeMutatable T :=
  { s with locked := false }

end RealtimeMutatable

/-- A complete operation on a `RealtimeMutatable`: a realtime publish of `v`
(`realtimeAcquire`, assignment of `v` to the reference, `realtimeRelease`), or a
non-realtime read (`nonRealtimeAcquire`, then `nonRealtimeRelease`). -/
inductive RMOp (T : Type) where
  | publish (v : T)
  | read
deriving DecidableEq, Repr

/-- Executes one complete operation; a read yields the value it obtained. -/
def RMOp.exec {T : Type} (fuel : Nat) (s : RealtimeMutatable T) :
    RMOp T → Option (Option T × RealtimeMutatable T)
  | .publish v => some (none, (s.realtimeAssign v).realtimeRelease)
  | .read =>
    match s.nonRealtimeAcquire fuel with
    | none => none
    | some (x, s1) => some (some x, s1.nonRealtimeRelease)

/-- Executes complete operations one after another and collects the values the reads
obtained, oldest first. -/
def RealtimeMutatable.run {T : Type} (fuel : Nat) :
    RealtimeMutatable T → List (RMOp T) → Option (List T × RealtimeMutatable T)
  | s, [] => some ([], s)
  | s, op :: ops =>
    match op.exec fuel s with
    | none => none
    | some (r, s1) =>
      match RealtimeMutatable.run fuel s1 ops with
      | none => none
      | some (rs, s2) => some (r.toList ++ rs, s2)

/-- What the reads of `ops` are expected to obtain when the most recent completed publish
before the first operation had the value `latest`: each read obtains the value of the most
recent publish before it. -/
def latestPublished {T : Type} (latest : T) : List (RMOp T) → List T
  | [] => []
  | .publish v :: ops => latestPublished v ops
  | .read :: ops => latest :: latestPublished latest ops

/-- State of a `RealtimeMutatable` between complete operations when the most recent
completed publish had the value `latest`: the mutex is free, `BUSY_BIT` is clear, and the
slot the next reader will be given holds `latest`. -/
def RealtimeMutatable.Settled {T : Type} (s : RealtimeMutatable T) (latest : T) : Prop :=
  s.locked = false ∧
  ((s.control = 0 ∧ s.data1 = latest) ∨ (s.control = 1 ∧ s.data0 = latest) ∨
   (s.control = 4 ∧ s.data0 = latest) ∨ (s.control = 5 ∧ s.data1 = latest))

/-- Value of the most recent completed publish after the operations of `ops`, when it was
`latest` before them. -/
def lastPublish {T : Type} (latest : T) : List (RMOp T) → T
  | [] => latest
  | .publish v :: ops => lastPublish v ops
  | .read :: ops => lastPublish latest ops

/-- Index of the slot that holds the value of the most recent publish: the slot
`control & INDEX_BIT` while `NEWDATA_BIT` is set, the other slot once a
`nonRealtimeAcquire` has flipped `INDEX_BIT` and cleared `NEWDATA_BIT`. -/
def RealtimeMutatable.latestSlot {T : Type} (s : RealtimeMutatable T) : Nat :=
  if s.control &&& NEWDATA_BIT ≠ 0 then s.control &&& INDEX_BIT
  else (s.control &&& INDEX_BIT) ^^^ 1

/-- An acquire/release pair during which the value is not written: a realtime pair
(`realtimeAcquire`, no assignment through the reference, `realtimeRelease`) or a
non-realtime pair (`nonRealtimeAcquire`, `nonRealtimeRelease`). -/
inductive RMPair where
  | realtime
  | nonRealtime
deriving DecidableEq, Repr

/-- Executes one pair. `realtimeAcquire` only hands out the reference to `realtimeCopy`,
so a realtime pair is the effect of `realtimeRelease`. -/
def RMPair.exec {T : Type} (fuel : Nat) (s : RealtimeMutatable T) :
    RMPair → Option (RealtimeMutatable T)
  | .realtime => some s.realtimeRelease
  | .nonRealtime => (s.nonRealtimeAcquire fuel).map (fun r => r.2.nonRealtimeRelease)

/-- Executes pairs one after another. -/
def RealtimeMutatable.runPairs {T : Type} (fuel : Nat) :
    RealtimeMutatable T → List RMPair → Option (RealtimeMutatable T)
  | s, [] => some s
  | s, p :: ps =>
    match p.exec fuel s with
    | none => none
    | some s1 => RealtimeMutatable.runPairs fuel s1 ps

/-- State of a `RealtimeMutatable` constructed from `v` whose value has not been written
since: both slots and `realtimeCopy` hold `v`, the mutex is free and the control word has
`BUSY_BIT` clear. -/
def RealtimeMutatable.Unwritten {T : Type} (s : RealtimeMutatable T) (v : T) : Prop :=
  s.data0 = v ∧ s.data1 = v ∧ s.realtimeCopy = v ∧ s.locked = false ∧
  (s.control = 0 ∨ s.control = 1 ∨ s.control = 4 ∨ s.control = 5)

/-! ### `RealtimeMutatable`: interleaved execution -/

/-- Position of the realtime writer: outside `realtimeRelease`, or inside it after the
`fetch_or` that returned `idx` (before the copy), or after the copy (before the store). -/
inductive WriterPc where
  | idle
  | copying (idx : Nat)
  | storing (idx : Nat)
deriving DecidableEq, Repr

/-- Position of a non-realtime reader: outside an access; inside `nonRealtimeAcquire` after
`lock ()`; inside the do-while loop with the local `current`; or holding `data[idx]`, which
`nonRealtimeAcquire` returned, with `nonRealtimeRelease` not yet called. -/
inductive ReaderPc where
  | idle
  | locked
  | spinning (current : Nat)
  | holding (idx : Nat)
deriving DecidableEq, Repr

/-- One realtime writer and any number of non-realtime readers (named by numbers) sharing
one object. -/
structure RMSys (T : Type) where
  obj : RealtimeMutatable T
  wpc : WriterPc
  rpc : Nat → ReaderPc

/-- One atomic step of one thread: the writer assigns through the reference returned by
`realtimeAcquire`; the writer runs the next statement of `realtimeRelease`; reader `tid`
runs its next step, where `spurious` makes a weak compare-exchange fail. -/
inductive RMAction (T : Type) where
  | assign (v : T)
  | writer
  | reader (tid : Nat) (spurious : Bool)

/-- System right after construction of the object from `v0`. -/
def RMSys.init {T : Type} (v0 : T) : RMSys T :=
  { obj := RealtimeMutatable.construct v0, wpc := .idle, rpc := fun _ => .idle }

/-- Effect of one step; `none` when the step is not enabled (a reader blocked in
`lock ()`, an assignment while the writer is inside `realtimeRelease`). -/
def RMSys.step {T : Type} (s : RMSys T) : RMAction T → Option (RMSys T)
  | .assign v =>
    match s.wpc with
    | .idle => some { s with obj := s.obj.realtimeAssign v }
    | _ => none
  | .writer =>
    match s.wpc with
    | .idle => some { s with obj := s.obj.fetchOrBusy.2, wpc := .copying s.obj.fetchOrBusy.1 }
    | .copying idx => some { s with obj := s.obj.copyToSlot idx, wpc := .storing idx }
    | .storing idx => some { s with obj := s.obj.storeControl idx, wpc := .idle }
  | .reader tid spurious =>
    match s.rpc tid with
    | .idle =>
      if s.obj.locked then none
      else some { s with obj := { s.obj with locked := true },
                         rpc := Function.update s.rpc tid .locked }
    | .locked =>
      let pc := if s.obj.control &&& NEWDATA_BIT ≠ 0 then ReaderPc.spinning s.obj.control
        else ReaderPc.holding (RealtimeMutatable.nonRealtimeIndex s.obj.control)
      some { s with rpc := Function.update s.rpc tid pc }
    | .spinning current =>
      let r := s.obj.casAttempt current spurious
      let pc := if r.1 then ReaderPc.holding (RealtimeMutatable.nonRealtimeIndex r.2.2.1)
        else ReaderPc.spinning r.2.1
      some { s with obj := r.2.2.2, rpc := Function.update s.rpc tid pc }
    | .holding _ =>
      some { s with obj := s.obj.nonRealtimeRelease, rpc := Function.update s.rpc tid .idle }

/-- Executes the steps of a schedule one after another. -/
def RMSys.run {T : Type} : RMSys T → List (RMAction T) → Option (RMSys T)
  | s, [] => some s
  | s, a :: as =>
    match s.step a with
    | none => none
    | some s1 => RMSys.run s1 as

/-- Agreement between the writer's position and the control word `c`: `BUSY_BIT` is set
exactly while the writer is inside `realtimeRelease`, and the index it obtained from the
`fetch_or` is the index bit of `c`. -/
def WriterPc.Agrees (c : Nat) : WriterPc → Prop
  | .idle => c &&& BUSY_BIT = 0
  | .copying idx => idx = c &&& INDEX_BIT ∧ c &&& BUSY_BIT = BUSY_BIT
  | .storing idx => idx = c &&& INDEX_BIT ∧ c &&& BUSY_BIT = BUSY_BIT

/-- Invariant of the interleaved execution. -/
structure RMSys.Inv {T : Type} (s : RMSys T) : Prop where
  bound : s.obj.control < 8
  writer : s.wpc.Agrees s.obj.control
  mutex : ∀ t, s.rpc t ≠ .idle → s.obj.locked = true
  single : ∀ t1 t2, s.rpc t1 ≠ .idle → s.rpc t2 ≠ .idle → t1 = t2
  slot : ∀ t idx, s.rpc t = .holding idx →
    idx = RealtimeMutatable.nonRealtimeIndex s.obj.control

/-! ## Definitions: `NonRealtimeMutatable.hpp`, `NonRealtimeMutatable.tcc` -/

/-- Data members of `farbot::NonRealtimeMutatable<T>` (NonRealtimeMutatable.hpp:105-112)
together with the heap cells of type `T` that are currently allocated: `heap a` is the value
stored at address `a`, or `none` when no cell is allocated there. The two `std::unique_ptr`
members and the two raw pointers are addresses, `0` being `nullptr`. -/
structure NonRealtimeMutatable (T : Type) where
  heap : Nat → Option T
  storage : Nat
  pointer : Nat
  locked : Bool
  copy : Nat
  currentObj : Nat

/-- Outcome of running the destructor. -/
inductive DtorOutcome where
  | destroyed
  | pointerAssertFailed
  | lockAssertFailed
deriving DecidableEq, Repr

namespace NonRealtimeMutatable

variable {T : Type}

/-- An address that `new` may return: not `nullptr` and not the address of a cell that is
currently allocated (addresses of released cells may be handed out again). -/
def Fresh (s : NonRealtimeMutatable T) (a : Nat) : Prop := a ≠ 0 ∧ s.heap a = none

/-- Constructor `NonRealtimeMutatable (const T & obj)` (NonRealtimeMutatable.tcc:12):
`storage (std::make_unique<T> (obj)), pointer (storage.get ())`, where the allocation
returned the address `a`; `copy` is empty and `currentObj` is `nullptr`. -/
def construct (a : Nat) (obj : T) : NonRealtimeMutatable T :=
  { heap := Function.update (fun _ => none) a (some obj), storage := a, pointer := a,
    locked := false, copy := 0, currentObj := 0 }

/-- Destructor (NonRealtimeMutatable.tcc:17-31), with no other thread running: the assertion
on `pointer`, then `try_lock ()`, which succeeds exactly when the mutex is free, and the
assertion on its result. The spin loop is not entered once the first assertion has passed. -/
def destructor (s : NonRealtimeMutatable T) : DtorOutcome :=
  if s.pointer = 0 then .pointerAssertFailed
  else
    let accquired := !s.locked
    if accquired then .destroyed else .lockAssertFailed

/-- Method `realtimeAcquire` (NonRealtimeMutatable.tcc:40-46). `none` when the assertion
`pointer.load () != nullptr` fails or when `currentObj` designates no allocated cell.
Otherwise `currentObj = pointer.exchange (nullptr)` and the value read through the
returned reference `*currentObj`. -/
def realtimeAcquire (s : NonRealtimeMutatable T) : Option (T × NonRealtimeMutatable T) :=
  if s.pointer = 0 then none
  else
    match s.heap s.pointer with
    | none => none
    | some v => some (v, { s with currentObj := s.pointer, pointer := 0 })

/-- Method `realtimeRelease` (NonRealtimeMutatable.tcc:48-56). `none` when the assertion
`pointer.load () == nullptr` fails; otherwise `pointer.store (currentObj)`. -/
def realtimeRelease (s : NonRealtimeMutatable T) : Option (NonRealtimeMutatable T) :=
  if s.pointer = 0 then some { s with pointer := s.currentObj } else none

/-- Statement `copy.reset (new T (v))` where the allocation returned the address `a`: the
new cell is created first, then `copy` takes it and the cell `copy` owned before, if any,
is released. -/
def resetCopy (s : NonRealtimeMutatable T) (a : Nat) (v : T) : NonRealtimeMutatable T :=
  let h1 := Function.update s.heap a (some v)
  let h2 := if s.copy = 0 then h1 else Function.update h1 s.copy none
  { s with heap := h2, copy := a }

/-- Method `nonRealtimeAcquire` (NonRealtimeMutatable.tcc:58-65), the allocation returning
the address `a`. `none` when `lock ()` would block because the mutex is held, or when
`storage` designates no allocated cell. The reference it returns is `*copy`. -/
def nonRealtimeAcquire (a : Nat) (s : NonRealtimeMutatable T) :
    Option (NonRealtimeMutatable T) :=
  if s.locked then none
  else
    match s.heap s.storage with
    | none => none
    | some v => some (resetCopy { s with locked := true } a v)

/-- Modification `f` applied through the reference returned by `nonRealtimeAcquire`. -/
def modifyCopy (s : NonRealtimeMutatable T) (f : T → T) : NonRealtimeMutatable T :=
  { s with heap := Function.update s.heap s.copy ((s.heap s.copy).map f) }

/-- One iteration of the do-while loop of `nonRealtimeRelease` (NonRealtimeMutatable.tcc:73-75):
`ptr = storage.get ()`, then the compare-exchange of `pointer` from `ptr` to `copy.get ()`,
which fails when `pointer` differs from `ptr` or, being weak, when `spurious` is set.
Returns whether it succeeded, and the object. -/
def releaseAttempt (s : NonRealtimeMutatable T) (spurious : Bool) :
    Bool × NonRealtimeMutatable T :=
  let ptr := s.storage
  if s.pointer = ptr ∧ spurious = false then (true, { s with pointer := s.copy })
  else (false, s)

/-- The do-while loop of `nonRealtimeRelease` with `fuel` iterations allowed and no other
thread running: the compare-exchange fails only on a value mismatch. `none` if the loop is
still spinning when the fuel is used up. -/
def releaseLoop : Nat → NonRealtimeMutatable T → Option (NonRealtimeMutatable T)
  | 0, _ => none
  | fuel + 1, s =>
    let r := s.releaseAttempt false
    if r.1 then some r.2 else releaseLoop fuel r.2

/-- Statements after the loop (NonRealtimeMutatable.tcc:77-78): `storage = std::move (copy)`
releases the cell `storage` owned, `storage` takes the cell of `copy`, `copy` becomes empty;
then `nonRealtimeLock.unlock ()`. -/
def moveCopyAndUnlock (s : NonRealtimeMutatable T) : NonRealtimeMutatable T :=
  { s with heap := if s.storage = 0 then s.heap else Function.update s.heap s.storage none,
           storage := s.copy, copy := 0, locked := false }

/-- Method `nonRealtimeRelease` (NonRealtimeMutatable.tcc:67-79) with no other thread
running. -/
def nonRealtimeRelease (fuel : Nat) (s : NonRealtimeMutatable T) :
    Option (NonRealtimeMutatable T) :=
  (releaseLoop fuel s).map moveCopyAndUnlock

/-- Method `nonRealtimeReplace` (NonRealtimeMutatable.tcc:81-89) called with a value `w` of
`T`, the allocation returning the address `a`. `none` when `lock ()` would block. -/
def nonRealtimeReplace (a : Nat) (fuel : Nat) (w : T) (s : NonRealtimeMutatable T) :
    Option (NonRealtimeMutatable T) :=
  if s.locked then none
  else nonRealtimeRelease fuel (resetCopy { s with locked := true } a w)

/-- A complete non-realtime write through `ScopedAccess<false>` (test.cpp:55-59):
`nonRealtimeAcquire`, the modification `f` of the clone, `nonRealtimeRelease`. -/
def nonRealtimeWrite (a : Nat) (fuel : Nat) (f : T → T) (s : NonRealtimeMutatable T) :
    Option (NonRealtimeMutatable T) :=
  match nonRealtimeAcquire a s with
  | none => none
  | some s1 => nonRealtimeRelease fuel (s1.modifyCopy f)

/-- State of an object on which no non-realtime access is in progress: `storage` owns an
allocated cell, `pointer` is its address or `nullptr`, in the latter case `currentObj` is
its address, and `copy` is empty. -/
structure Quiet (s : NonRealtimeMutatable T) : Prop where
  owned : s.storage ≠ 0
  live : ∃ v, s.heap s.storage = some v
  ptr : s.pointer = s.storage ∨ (s.pointer = 0 ∧ s.currentObj = s.storage)
  unlocked : s.locked = false
  nocopy : s.copy = 0

/-- State of an object between two operations, whether or not a non-realtime access is
open: `storage` owns an allocated cell; `pointer` is its address, or `nullptr` with
`currentObj` its address; while the mutex is held `copy` owns another allocated cell, and
while it is free `copy` is empty. -/
structure Consistent (s : NonRealtimeMutatable T) : Prop where
  owned : s.storage ≠ 0
  live : ∃ v, s.heap s.storage = some v
  ptr : s.pointer = s.storage ∨ (s.pointer = 0 ∧ s.currentObj = s.storage)
  staged : s.locked = true → s.copy ≠ 0 ∧ s.copy ≠ s.storage ∧ ∃ x, s.heap s.copy = some x
  idle : s.locked = false → s.copy = 0

end NonRealtimeMutatable

/-- Coefficient record of test.cpp:8. The `float` constants the test stores (`1`, `0`,
`0.5`) are dyadic rationals and are kept exactly. -/
structure BiquadCoeffs where
  b0 : Rat
  b1 : Rat
  b2 : Rat
  a1 : Rat
  a2 : Rat
deriving DecidableEq

/-! ## Lemmas: arithmetic of masks and counters -/

theorem getD_set_eq (l : List Nat) (i j v : Nat) :
    (l.set i v).getD j 0 = if i = j ∧ i < l.length then v else l.getD j 0 := by
  simp only [List.getD_eq_getElem?_getD, List.getElem?_set]
  by_cases h : i = j
  · subst h
    by_cases h2 : i < l.length
    · simp [h2]
    · simp [h2, List.getElem?_eq_none (Nat.le_of_not_lt h2)]
  · simp [h]

theorem maskOf_pow (k : Nat) (hk : k < 32) : fifo.maskOf (2 ^ k) = 2 ^ k - 1 := by
  have h1 : 2 ^ k < 2 ^ 32 := Nat.pow_lt_pow_right (by decide) hk
  have h2 : 0 < 2 ^ k := Nat.pos_pow_of_pos k (by decide)
  unfold fifo.maskOf u32
  rw [show 2 ^ k + 2 ^ 32 - 1 = (2 ^ k - 1) + 2 ^ 32 by omega, Nat.add_mod_right]
  exact Nat.mod_eq_of_lt (by omega)

theorem pow_dvd_u32 (k : Nat) (hk : k < 32) : 2 ^ k ∣ u32 :=
  Nat.pow_dvd_pow 2 (Nat.le_of_lt hk)

theorem land_mask (x k : Nat) : x &&& (2 ^ k - 1) = x % 2 ^ k :=
  Nat.and_pow_two_sub_one_eq_mod x k

theorem succ_u32_mod {c : Nat} (hc : c ∣ u32) (x i : Nat) :
    ((x + 1) % u32 + i) % c = (x + (i + 1)) % c := by
  rw [Nat.add_mod, Nat.mod_mod_of_dvd _ hc, ← Nat.add_mod]
  congr 1
  omega

theorem add_mod_cancel_lt {c r i j : Nat} (hi : i < c) (hj : j < c)
    (h : (r + i) % c = (r + j) % c) : i = j := by
  have h1 : i ≡ j [MOD c] := Nat.ModEq.add_left_cancel' r h
  exact Nat.ModEq.eq_of_lt_of_lt h1 hi hj

theorem set_null_of_null (l : List Nat) (i : Nat) (h : l.getD i 0 = 0) : l.set i 0 = l := by
  apply List.ext_getElem?
  intro j
  rw [List.getElem?_set]
  by_cases hij : i = j
  · subst hij
    by_cases hl : i < l.length
    · simp only [hl, if_true]
      rw [List.getD_eq_getElem?_getD, List.getElem?_eq_getElem hl] at h
      rw [List.getElem?_eq_getElem hl]
      simpa using h.symm
    · simp [hl, List.getElem?_eq_none (Nat.le_of_not_lt hl)]
  · simp [hij]

theorem probe_succ (x i mask : Nat) :
    fifo.probe ((x + 1) % u32) i mask = fifo.probe x (i + 1) mask := by
  unfold fifo.probe
  rw [Nat.add_mod, Nat.mod_mod, ← Nat.add_mod]
  congr 2
  omega

theorem probe_zero (x mask : Nat) (hx : x < u32) : fifo.probe x 0 mask = x &&& mask := by
  unfold fifo.probe
  rw [Nat.add_zero, Nat.mod_eq_of_lt hx]

theorem probe_pow {k : Nat} (hk : k < 32) (x i : Nat) :
    fifo.probe x i (2 ^ k - 1) = (x + i) % 2 ^ k := by
  unfold fifo.probe
  rw [land_mask, Nat.mod_mod_of_dvd _ (pow_dvd_u32 k hk)]

theorem u32_step (x n : Nat) : ((x + 1) % u32 + n) % u32 = (x + (n + 1)) % u32 := by
  rw [Nat.add_mod, Nat.mod_mod, ← Nat.add_mod]
  congr 1
  omega

/-! ## Lemmas: what the two loops compute -/

theorem pushLoop_miss (n : Nat) : ∀ (s : fifo) (v : Nat), s.writepos < u32 →
    (∀ i, i < n → s.slots.getD (fifo.probe s.writepos i s.slot_mask) 0 ≠ 0) →
    fifo.pushLoop n s v = (false, { s with writepos := (s.writepos + n) % u32 }) := by
  induction n with
  | zero =>
    intro s v hw _
    simp [fifo.pushLoop, Nat.mod_eq_of_lt hw]
  | succ n ih =>
    intro s v hw h
    have h0 := h 0 (Nat.succ_pos n)
    rw [probe_zero _ _ hw] at h0
    simp only [fifo.pushLoop, h0, if_false]
    rw [ih _ v (Nat.mod_lt _ (by decide))]
    · simp only [u32_step]
    · intro i hi
      simpa [probe_succ] using h (i + 1) (Nat.succ_lt_succ hi)

theorem pushLoop_hit (n : Nat) : ∀ (s : fifo) (v i : Nat), s.writepos < u32 → i < n →
    (∀ j, j < i → s.slots.getD (fifo.probe s.writepos j s.slot_mask) 0 ≠ 0) →
    s.slots.getD (fifo.probe s.writepos i s.slot_mask) 0 = 0 →
    fifo.pushLoop n s v = (true,
      { s with writepos := (s.writepos + (i + 1)) % u32,
               slots := s.slots.set (fifo.probe s.writepos i s.slot_mask) v }) := by
  induction n with
  | zero => intro s v i _ hi; exact absurd hi (Nat.not_lt_zero i)
  | succ n ih =>
    intro s v i hw hi hlt hnull
    cases i with
    | zero =>
      rw [probe_zero _ _ hw] at hnull
      simp only [fifo.pushLoop, hnull, probe_zero _ _ hw, if_true, Nat.zero_add]
    | succ i =>
      have h0 := hlt 0 (Nat.succ_pos i)
      rw [probe_zero _ _ hw] at h0
      simp only [fifo.pushLoop, h0, if_false]
      rw [ih _ v i (Nat.mod_lt _ (by decide)) (Nat.lt_of_succ_lt_succ hi)]
      · simp only [u32_step, probe_succ]
      · intro j hj
        simpa [probe_succ] using hlt (j + 1) (Nat.succ_lt_succ hj)
      · simpa [probe_succ] using hnull

theorem popLoop_miss (n : Nat) : ∀ (s : fifo) (res : Nat), s.readpos < u32 →
    (∀ i, i < n → s.slots.getD (fifo.probe s.readpos i s.slot_mask) 0 = 0) →
    fifo.popLoop n s res =
      (false, if n = 0 then res else 0, { s with readpos := (s.readpos + n) % u32 }) := by
  induction n with
  | zero =>
    intro s res hr _
    simp [fifo.popLoop, Nat.mod_eq_of_lt hr]
  | succ n ih =>
    intro s res hr h
    have h0 := h 0 (Nat.succ_pos n)
    rw [probe_zero _ _ hr] at h0
    simp only [fifo.popLoop, h0, set_null_of_null _ _ h0, ne_eq, not_true_eq_false, if_false]
    rw [ih _ 0 (Nat.mod_lt _ (by decide))]
    · simp only [u32_step, ite_self, Nat.succ_ne_zero, if_false]
    · intro i hi
      simpa [probe_succ] using h (i + 1) (Nat.succ_lt_succ hi)

theorem popLoop_hit (n : Nat) : ∀ (s : fifo) (res i : Nat), s.readpos < u32 → i < n →
    (∀ j, j < i → s.slots.getD (fifo.probe s.readpos j s.slot_mask) 0 = 0) →
    s.slots.getD (fifo.probe s.readpos i s.slot_mask) 0 ≠ 0 →
    fifo.popLoop n s res = (true, s.slots.getD (fifo.probe s.readpos i s.slot_mask) 0,
      { s with readpos := (s.readpos + (i + 1)) % u32,
               slots := s.slots.set (fifo.probe s.readpos i s.slot_mask) 0 }) := by
  induction n with
  | zero => intro s res i _ hi; exact absurd hi (Nat.not_lt_zero i)
  | succ n ih =>
    intro s res i hr hi hlt hnn
    cases i with
    | zero =>
      rw [probe_zero _ _ hr] at hnn
      simp only [fifo.popLoop, ne_eq, hnn, probe_zero _ _ hr, not_false_eq_true, if_true,
        Nat.zero_add]
    | succ i =>
      have h0 := hlt 0 (Nat.succ_pos i)
      rw [probe_zero _ _ hr] at h0
      simp only [fifo.popLoop, h0, set_null_of_null _ _ h0, ne_eq, not_true_eq_false, if_false]
      rw [ih _ 0 i (Nat.mod_lt _ (by decide)) (Nat.lt_of_succ_lt_succ hi)]
      · simp only [u32_step, probe_succ]
      · intro j hj
        simpa [probe_succ] using hlt (j + 1) (Nat.succ_lt_succ hj)
      · simpa [probe_succ] using hnn

theorem first_index (P : Nat → Prop) [DecidablePred P] (n : Nat) :
    (∀ i, i < n → ¬ P i) ∨ ∃ i, i < n ∧ P i ∧ ∀ j, j < i → ¬ P j := by
  by_cases h : ∃ i, i < n ∧ P i
  · right
    refine ⟨Nat.find h, (Nat.find_spec h).1, (Nat.find_spec h).2, ?_⟩
    intro j hj hP
    exact Nat.find_min h hj ⟨Nat.lt_trans hj (Nat.find_spec h).1, hP⟩
  · left
    intro i hi hP
    exact h ⟨i, hi, hP⟩

theorem ring_cover {c : Nat} (r j : Nat) (hj : j < c) : ∃ i, i < c ∧ (r + i) % c = j := by
  have hc : 0 < c := Nat.lt_of_le_of_lt (Nat.zero_le j) hj
  have hr : r % c < c := Nat.mod_lt r hc
  refine ⟨(j + c - r % c) % c, Nat.mod_lt _ hc, ?_⟩
  have hd : c * (r / c) + r % c = r := Nat.div_add_mod r c
  rw [Nat.add_mod_mod, show r + (j + c - r % c) = j + c + c * (r / c) by omega,
    Nat.add_mul_mod_self_left, Nat.add_mod_right]
  exact Nat.mod_eq_of_lt hj

theorem pop_cases (k : Nat) (hk : k < 32) (s : fifo) (hs : s.WF k) (res : Nat) :
    ((∀ j, j < 2 ^ k → s.slots.getD j 0 = 0) ∧
      s.pop res = (false, 0, { s with readpos := (s.readpos + 2 ^ k) % u32 })) ∨
    ∃ i, i < 2 ^ k ∧ (∀ j, j < i → s.slots.getD ((s.readpos + j) % 2 ^ k) 0 = 0) ∧
      s.slots.getD ((s.readpos + i) % 2 ^ k) 0 ≠ 0 ∧
      s.pop res = (true, s.slots.getD ((s.readpos + i) % 2 ^ k) 0,
        { s with readpos := (s.readpos + (i + 1)) % u32,
                 slots := s.slots.set ((s.readpos + i) % 2 ^ k) 0 }) := by
  have hpos : 0 < 2 ^ k := Nat.pos_pow_of_pos k (by decide)
  rcases first_index (fun i => s.slots.getD ((s.readpos + i) % 2 ^ k) 0 ≠ 0) (2 ^ k) with h | h
  · left
    have hall : ∀ i, i < 2 ^ k → s.slots.getD ((s.readpos + i) % 2 ^ k) 0 = 0 := by
      intro i hi
      exact not_not.mp (h i hi)
    constructor
    · intro j hj
      obtain ⟨i, hi, hij⟩ := ring_cover s.readpos j hj
      rw [← hij]
      exact hall i hi
    · unfold fifo.pop
      rw [hs.size, popLoop_miss _ _ _ hs.rpos]
      · simp [Nat.ne_of_gt hpos]
      · intro i hi
        rw [hs.mask, probe_pow hk]
        exact hall i hi
  · right
    obtain ⟨i, hi, hnn, hfirst⟩ := h
    refine ⟨i, hi, fun j hj => not_not.mp (hfirst j hj), hnn, ?_⟩
    unfold fifo.pop
    rw [hs.size, popLoop_hit _ _ _ i hs.rpos hi]
    · rw [hs.mask, probe_pow hk]
    · intro j hj
      rw [hs.mask, probe_pow hk]
      exact not_not.mp (hfirst j hj)
    · rw [hs.mask, probe_pow hk]
      exact hnn

theorem push_cases (k : Nat) (hk : k < 32) (s : fifo) (hs : s.WF k) (v : Nat) :
    ((∀ j, j < 2 ^ k → s.slots.getD j 0 ≠ 0) ∧
      s.push v = (false, { s with writepos := (s.writepos + 2 ^ k) % u32 })) ∨
    ∃ i, i < 2 ^ k ∧ (∀ j, j < i → s.slots.getD ((s.writepos + j) % 2 ^ k) 0 ≠ 0) ∧
      s.slots.getD ((s.writepos + i) % 2 ^ k) 0 = 0 ∧
      s.push v = (true,
        { s with writepos := (s.writepos + (i + 1)) % u32,
                 slots := s.slots.set ((s.writepos + i) % 2 ^ k) v }) := by
  rcases first_index (fun i => s.slots.getD ((s.writepos + i) % 2 ^ k) 0 = 0) (2 ^ k) with h | h
  · left
    constructor
    · intro j hj
      obtain ⟨i, hi, hij⟩ := ring_cover s.writepos j hj
      rw [← hij]
      exact h i hi
    · unfold fifo.push
      rw [hs.size, pushLoop_miss _ _ _ hs.wpos]
      intro i hi
      rw [hs.mask, probe_pow hk]
      exact h i hi
  · right
    obtain ⟨i, hi, hnull, hfirst⟩ := h
    refine ⟨i, hi, hfirst, hnull, ?_⟩
    unfold fifo.push
    rw [hs.size, pushLoop_hit _ _ _ i hs.wpos hi]
    · rw [hs.mask, probe_pow hk]
    · intro j hj
      rw [hs.mask, probe_pow hk]
      exact hfirst j hj
    · rw [hs.mask, probe_pow hk]
      exact hnull

/-! ## Lemmas: the ring invariant -/

theorem map_getD_range (q : List Nat) :
    (List.range q.length).map (fun i => q.getD i 0) = q := by
  apply List.ext_getElem
  · simp
  · intro i h1 h2
    simp only [List.getElem_map, List.getElem_range]
    exact List.getD_eq_getElem q 0 h2

theorem filter_getD_range (q : List Nat) (c : Nat) (hlen : q.length ≤ c)
    (hnn : ∀ x ∈ q, x ≠ 0) :
    ((List.range c).map (fun i => q.getD i 0)).filter (fun p => p != 0) = q := by
  obtain ⟨d, rfl⟩ := Nat.exists_eq_add_of_le hlen
  rw [List.range_add, List.map_append, List.filter_append, map_getD_range]
  have h1 : q.filter (fun p => p != 0) = q := by
    rw [List.filter_eq_self]
    intro a ha
    simpa using hnn a ha
  have h2 : (List.map (fun i => q.getD i 0)
      (List.map (fun x => q.length + x) (List.range d))).filter (fun p => p != 0) = [] := by
    rw [List.filter_eq_nil_iff]
    intro a ha
    simp only [List.map_map, List.mem_map, Function.comp] at ha
    obtain ⟨x, _, hx⟩ := ha
    rw [List.getD_eq_default q 0 (Nat.le_add_right _ _)] at hx
    simp [← hx]
  rw [h1, h2, List.append_nil]

theorem ringContents_eq {k : Nat} {s : fifo} {q : List Nat} (h : s.Holds k q) :
    s.ringContents = q := by
  unfold fifo.ringContents
  rw [h.wf.size, h.wf.mask]
  have hmap : (List.range (2 ^ k)).map
      (fun i => s.slots.getD ((s.readpos + i) &&& (2 ^ k - 1)) 0) =
      (List.range (2 ^ k)).map (fun i => q.getD i 0) := by
    apply List.map_congr_left
    intro i hi
    rw [land_mask]
    exact h.cells i (List.mem_range.mp hi)
  rw [hmap]
  exact filter_getD_range q (2 ^ k) h.len h.nonnull

theorem construct_pow (k : Nat) (hk : k < 32) :
    fifo.construct (2 ^ k) = some { slots := List.replicate (2 ^ k) 0, slot_mask := 2 ^ k - 1,
                                    readpos := 0, writepos := 0 } := by
  have hpos : 0 < 2 ^ k := Nat.pos_pow_of_pos k (by decide)
  have hand : 2 ^ k &&& (2 ^ k - 1) = 0 := by rw [land_mask, Nat.mod_self]
  simp [fifo.construct, fifo.capacityAssert, maskOf_pow k hk, hand]

theorem getD_replicate_zero (n j : Nat) : (List.replicate n 0).getD j 0 = 0 := by
  rw [List.getD_eq_getElem?_getD, List.getElem?_replicate]
  by_cases h : j < n <;> simp [h]

theorem holds_fresh (k : Nat) :
    fifo.Holds k { slots := List.replicate (2 ^ k) 0, slot_mask := 2 ^ k - 1,
                   readpos := 0, writepos := 0 } [] where
  wf := ⟨by simp, rfl, Nat.pos_pow_of_pos 32 (by decide), Nat.pos_pow_of_pos 32 (by decide)⟩
  len := Nat.zero_le _
  next := by simp
  cells := by
    intro i _
    simp [getD_replicate_zero]
  nonnull := by simp

theorem holds_push_room {k : Nat} (hk : k < 32) {s : fifo} {q : List Nat} (h : s.Holds k q)
    (v : Nat) (hv : v ≠ 0) (hroom : q.length < 2 ^ k) :
    (s.push v).1 = true ∧ (s.push v).2.Holds k (q ++ [v]) := by
  have hc : 2 ^ k ∣ u32 := pow_dvd_u32 k hk
  have hpos : 0 < 2 ^ k := Nat.pos_pow_of_pos k (by decide)
  have hslot : s.slots.getD (fifo.probe s.writepos 0 s.slot_mask) 0 = 0 := by
    rw [h.wf.mask, probe_pow hk, Nat.add_zero, h.next, h.cells _ hroom]
    exact List.getD_eq_default q 0 (Nat.le_refl _)
  have hpush : s.push v = (true,
      { s with writepos := (s.writepos + (0 + 1)) % u32,
               slots := s.slots.set (fifo.probe s.writepos 0 s.slot_mask) v }) := by
    unfold fifo.push
    rw [h.wf.size]
    exact pushLoop_hit _ s v 0 h.wf.wpos hpos (fun j hj => absurd hj (Nat.not_lt_zero j)) hslot
  rw [hpush]
  refine ⟨rfl, ?_⟩
  have hprobe : fifo.probe s.writepos 0 s.slot_mask = (s.readpos + q.length) % 2 ^ k := by
    rw [h.wf.mask, probe_pow hk, Nat.add_zero, h.next]
  refine ⟨⟨?_, h.wf.mask, h.wf.rpos, Nat.mod_lt _ (Nat.pos_pow_of_pos 32 (by decide))⟩,
    ?_, ?_, ?_, ?_⟩
  · simp only [List.length_set]
    exact h.wf.size
  · simp only [List.length_append, List.length_singleton]
    exact hroom
  · simp only [List.length_append, List.length_singleton, Nat.zero_add]
    rw [Nat.mod_mod_of_dvd _ hc, Nat.add_mod, h.next, ← Nat.add_mod]
    congr 1
  · intro i hi
    simp only [hprobe]
    rw [getD_set_eq]
    by_cases hin : i = q.length
    · subst hin
      have hlt : (s.readpos + q.length) % 2 ^ k < s.slots.length := by
        rw [h.wf.size]
        exact Nat.mod_lt _ hpos
      simp only [hlt, and_self, if_true]
      rw [List.getD_append_right q [v] 0 _ (Nat.le_refl _), Nat.sub_self]
      rfl
    · have hne : ¬ ((s.readpos + q.length) % 2 ^ k = (s.readpos + i) % 2 ^ k ∧
          (s.readpos + q.length) % 2 ^ k < s.slots.length) := by
        intro hcon
        exact hin (add_mod_cancel_lt hi hroom hcon.1.symm)
      simp only [hne, if_false]
      rw [h.cells i hi]
      by_cases hlt : i < q.length
      · rw [List.getD_append q [v] 0 i hlt]
      · have hgt : q.length + 1 ≤ i := by omega
        rw [List.getD_eq_default q 0 (by omega),
          List.getD_eq_default (q ++ [v]) 0 (by simpa using hgt)]
  · intro x hx
    rcases List.mem_append.mp hx with hx | hx
    · exact h.nonnull x hx
    · rw [List.mem_singleton.mp hx]
      exact hv

theorem holds_all_nonnull {k : Nat} {s : fifo} {q : List Nat} (h : s.Holds k q)
    (hfull : q.length = 2 ^ k) : ∀ j, j < 2 ^ k → s.slots.getD j 0 ≠ 0 := by
  intro j hj
  obtain ⟨i, hi, hij⟩ := ring_cover s.readpos j hj
  rw [← hij, h.cells i hi, List.getD_eq_getElem q 0 (by omega)]
  exact h.nonnull _ (List.getElem_mem _)

theorem holds_push_full {k : Nat} (hk : k < 32) {s : fifo} {q : List Nat} (h : s.Holds k q)
    (v : Nat) (hfull : q.length = 2 ^ k) :
    (s.push v).1 = false ∧ (s.push v).2.Holds k q := by
  have hc : 2 ^ k ∣ u32 := pow_dvd_u32 k hk
  have hall := holds_all_nonnull h hfull
  rcases push_cases k hk s h.wf v with ⟨_, hpush⟩ | ⟨i, hi, _, hnull, _⟩
  · rw [hpush]
    refine ⟨rfl, ⟨h.wf.size, h.wf.mask, h.wf.rpos,
      Nat.mod_lt _ (Nat.pos_pow_of_pos 32 (by decide))⟩, h.len, ?_, h.cells, h.nonnull⟩
    show (s.writepos + 2 ^ k) % u32 % 2 ^ k = _
    rw [Nat.mod_mod_of_dvd _ hc, Nat.add_mod_right]
    exact h.next
  · exact absurd hnull (hall _ (Nat.mod_lt _ (Nat.pos_pow_of_pos k (by decide))))

theorem holds_pop_empty {k : Nat} (hk : k < 32) {s : fifo} (h : s.Holds k []) (res : Nat) :
    (s.pop res).1 = false ∧ (s.pop res).2.2.Holds k [] := by
  have hc : 2 ^ k ∣ u32 := pow_dvd_u32 k hk
  rcases pop_cases k hk s h.wf res with ⟨_, hpop⟩ | ⟨i, hi, _, hnn, _⟩
  · rw [hpop]
    refine ⟨rfl, ⟨h.wf.size, h.wf.mask, Nat.mod_lt _ (Nat.pos_pow_of_pos 32 (by decide)),
      h.wf.wpos⟩, h.len, ?_, ?_, h.nonnull⟩
    · show s.writepos % 2 ^ k = ((s.readpos + 2 ^ k) % u32 + 0) % 2 ^ k
      rw [Nat.add_zero, Nat.mod_mod_of_dvd _ hc, Nat.add_mod_right]
      simpa using h.next
    · intro i hi
      show s.slots.getD (((s.readpos + 2 ^ k) % u32 + i) % 2 ^ k) 0 = _
      rw [Nat.add_mod, Nat.mod_mod_of_dvd _ hc, Nat.add_mod_right, ← Nat.add_mod]
      exact h.cells i hi
  · rw [h.cells i hi] at hnn
    exact absurd List.getD_nil hnn

theorem holds_pop_cons {k : Nat} (hk : k < 32) {s : fifo} {x : Nat} {q : List Nat}
    (h : s.Holds k (x :: q)) (res : Nat) :
    (s.pop res).1 = true ∧ (s.pop res).2.1 = x ∧ (s.pop res).2.2.Holds k q := by
  have hc : 2 ^ k ∣ u32 := pow_dvd_u32 k hk
  have hpos : 0 < 2 ^ k := Nat.pos_pow_of_pos k (by decide)
  have hlen : q.length + 1 ≤ 2 ^ k := by simpa using h.len
  have hhead : s.slots.getD ((s.readpos + 0) % 2 ^ k) 0 = x := by
    rw [h.cells 0 hpos]
    rfl
  have hx : x ≠ 0 := h.nonnull x (List.mem_cons_self x q)
  have hslot : s.slots.getD (fifo.probe s.readpos 0 s.slot_mask) 0 ≠ 0 := by
    rw [h.wf.mask, probe_pow hk, hhead]
    exact hx
  have hpop : s.pop res = (true, s.slots.getD (fifo.probe s.readpos 0 s.slot_mask) 0,
      { s with readpos := (s.readpos + (0 + 1)) % u32,
               slots := s.slots.set (fifo.probe s.readpos 0 s.slot_mask) 0 }) := by
    unfold fifo.pop
    rw [h.wf.size]
    exact popLoop_hit _ s res 0 h.wf.rpos hpos (fun j hj => absurd hj (Nat.not_lt_zero j)) hslot
  have hprobe : fifo.probe s.readpos 0 s.slot_mask = (s.readpos + 0) % 2 ^ k := by
    rw [h.wf.mask, probe_pow hk]
  rw [hpop, hprobe]
  refine ⟨rfl, hhead, ⟨?_, h.wf.mask, Nat.mod_lt _ (Nat.pos_pow_of_pos 32 (by decide)),
    h.wf.wpos⟩, by omega, ?_, ?_, ?_⟩
  · simp only [List.length_set]
    exact h.wf.size
  · show s.writepos % 2 ^ k = ((s.readpos + (0 + 1)) % u32 + q.length) % 2 ^ k
    rw [Nat.zero_add, succ_u32_mod hc, h.next]
    rfl
  · intro i hi
    show (s.slots.set ((s.readpos + 0) % 2 ^ k) 0).getD
      (((s.readpos + (0 + 1)) % u32 + i) % 2 ^ k) 0 = q.getD i 0
    rw [Nat.zero_add, succ_u32_mod hc, getD_set_eq]
    by_cases hlast : i + 1 = 2 ^ k
    · have hsame : (s.readpos + 0) % 2 ^ k = (s.readpos + (i + 1)) % 2 ^ k := by
        rw [hlast, Nat.add_mod_right, Nat.add_zero]
      have hlt : (s.readpos + 0) % 2 ^ k < s.slots.length := by
        rw [h.wf.size]
        exact Nat.mod_lt _ hpos
      simp only [hsame, true_and]
      rw [← hsame]
      simp only [hlt, if_true]
      exact (List.getD_eq_default q 0 (by omega)).symm
    · have hi1 : i + 1 < 2 ^ k := by omega
      have hne : ¬ ((s.readpos + 0) % 2 ^ k = (s.readpos + (i + 1)) % 2 ^ k ∧
          (s.readpos + 0) % 2 ^ k < s.slots.length) := by
        intro hcon
        exact absurd (add_mod_cancel_lt hpos hi1 hcon.1) (by omega)
      simp only [hne, if_false]
      rw [h.cells (i + 1) hi1]
      rfl
  · intro y hy
    exact h.nonnull y (List.mem_cons_of_mem x hy)

theorem step_holds {k : Nat} (hk : k < 32) (t : FifoRun) (q : List Nat) (op : FifoOp)
    (hop : op.NonNull) (h : t.state.Holds k q) (hq : t.popped ++ q = t.pushed) :
    ∃ q', (t.step op).state.Holds k q' ∧ (t.step op).popped ++ q' = (t.step op).pushed := by
  cases op with
  | push v =>
    by_cases hroom : q.length < 2 ^ k
    · obtain ⟨h1, h2⟩ := holds_push_room hk h v hop hroom
      refine ⟨q ++ [v], h2, ?_⟩
      simp only [FifoRun.step, h1, if_true]
      rw [← List.append_assoc, hq]
    · have hfull : q.length = 2 ^ k := Nat.le_antisymm h.len (Nat.le_of_not_lt hroom)
      obtain ⟨h1, h2⟩ := holds_push_full hk h v hfull
      refine ⟨q, h2, ?_⟩
      simp only [FifoRun.step, h1]
      exact hq
  | pop =>
    cases q with
    | nil =>
      obtain ⟨h1, h2⟩ := holds_pop_empty hk h 0
      refine ⟨[], h2, ?_⟩
      simp only [FifoRun.step, h1]
      exact hq
    | cons x q =>
      obtain ⟨h1, h2, h3⟩ := holds_pop_cons hk h 0
      refine ⟨q, h3, ?_⟩
      simp only [FifoRun.step, h1, h2, if_true]
      rw [List.append_assoc]
      exact hq

theorem exec_holds {k : Nat} (hk : k < 32) (ops : List FifoOp) :
    ∀ (t : FifoRun) (q : List Nat), (∀ op ∈ ops, op.NonNull) → t.state.Holds k q →
      t.popped ++ q = t.pushed →
      ∃ q', (t.exec ops).state.Holds k q' ∧ (t.exec ops).popped ++ q' = (t.exec ops).pushed := by
  induction ops with
  | nil => intro t q _ h hq; exact ⟨q, h, hq⟩
  | cons op ops ih =>
    intro t q hops h hq
    obtain ⟨q1, h1, hq1⟩ := step_holds hk t q op (hops op (List.mem_cons_self op ops)) h hq
    exact ih (t.step op) q1 (fun o ho => hops o (List.mem_cons_of_mem op ho)) h1 hq1

theorem pushAll_holds {k : Nat} (hk : k < 32) (vs : List Nat) :
    ∀ (s : fifo) (q : List Nat), (∀ v ∈ vs, v ≠ 0) → s.Holds k q →
      (s.pushAll vs).1 = (List.range vs.length).map (fun i => decide (q.length + i < 2 ^ k)) := by
  induction vs with
  | nil => intro s q _ _; rfl
  | cons v vs ih =>
    intro s q hvs h
    have hv : v ≠ 0 := hvs v (List.mem_cons_self v vs)
    have hrest : ∀ w ∈ vs, w ≠ 0 := fun w hw => hvs w (List.mem_cons_of_mem v hw)
    simp only [fifo.pushAll, List.length_cons, List.range_succ_eq_map, List.map_cons,
      List.map_map, Nat.add_zero]
    by_cases hroom : q.length < 2 ^ k
    · obtain ⟨h1, h2⟩ := holds_push_room hk h v hv hroom
      rw [h1, ih _ _ hrest h2]
      simp only [hroom, decide_True, List.length_append, List.length_singleton]
      congr 1
      apply List.map_congr_left
      intro i _
      simp only [Function.comp, Nat.succ_eq_add_one]
      congr 2
      omega
    · have hfull : q.length = 2 ^ k := Nat.le_antisymm h.len (Nat.le_of_not_lt hroom)
      obtain ⟨h1, h2⟩ := holds_push_full hk h v hfull
      rw [h1, ih _ _ hrest h2]
      simp only [hroom, decide_False]
      congr 1
      apply List.map_congr_left
      intro i _
      have e1 : ¬ (q.length + i < 2 ^ k) := by omega
      have e2 : ¬ (q.length + (i + 1) < 2 ^ k) := by omega
      simp only [Function.comp, Nat.succ_eq_add_one, e1, e2]

theorem testBit_top (x k : Nat) (h1 : 2 ^ k ≤ x) (h2 : x < 2 ^ (k + 1)) :
    x.testBit k = true := by
  rw [Nat.testBit_to_div_mod]
  have hdiv : x / 2 ^ k = 1 := by
    apply Nat.div_eq_of_lt_le
    · simpa using h1
    · rw [pow_succ] at h2
      omega
  simp [hdiv]

theorem land_pred_eq_zero (c : Nat) (h : c &&& (c - 1) = 0) : c = 0 ∨ c = 2 ^ Nat.log 2 c := by
  by_cases hc : c = 0
  · exact Or.inl hc
  right
  have h1 : 2 ^ Nat.log 2 c ≤ c := Nat.pow_log_le_self 2 hc
  have h2 : c < 2 ^ (Nat.log 2 c + 1) := Nat.lt_pow_succ_log_self (by decide) c
  by_contra hne
  have h3 : 2 ^ Nat.log 2 c ≤ c - 1 := by omega
  have hb : (c &&& (c - 1)).testBit (Nat.log 2 c) = true := by
    rw [Nat.testBit_and, testBit_top c _ h1 h2, testBit_top (c - 1) _ h3 (by omega)]
    rfl
  rw [h, Nat.zero_testBit] at hb
  exact Bool.noConfusion hb

/-- The constructor's assertion, for every 32-bit capacity: it passes exactly for `0` and for
the powers of two. -/
theorem capacityAssert_iff (c : Nat) (hc : c < u32) :
    fifo.capacityAssert c = true ↔ c = 0 ∨ ∃ k, k < 32 ∧ c = 2 ^ k := by
  constructor
  · intro h
    by_cases h0 : c = 0
    · exact Or.inl h0
    · right
      have hm : fifo.maskOf c = c - 1 := by
        unfold fifo.maskOf
        unfold u32 at hc ⊢
        rw [show c + 2 ^ 32 - 1 = (c - 1) + 2 ^ 32 by omega, Nat.add_mod_right]
        exact Nat.mod_eq_of_lt (by omega)
      have hz : c &&& (c - 1) = 0 := by
        simpa [fifo.capacityAssert, hm] using h
      rcases land_pred_eq_zero c hz with h1 | h1
      · exact absurd h1 h0
      · refine ⟨Nat.log 2 c, ?_, h1⟩
        by_contra hk
        have hle : 2 ^ 32 ≤ 2 ^ Nat.log 2 c := Nat.pow_le_pow_right (by decide) (by omega)
        unfold u32 at hc
        omega
  · rintro (h | ⟨k, hk, h⟩)
    · subst h
      decide
    · subst h
      have hand : 2 ^ k &&& (2 ^ k - 1) = 0 := by rw [land_mask, Nat.mod_self]
      simp [fifo.capacityAssert, maskOf_pow k hk, hand]

/-! ## Theorems: fifo -/

/-- C1: for every capacity `2 ^ k` that fits a `std::uint32_t` and every sequence of pushes of
non-null pointers and pops executed one after another on a freshly constructed fifo (failing
calls included), the pointers returned by the successful pops followed by the pointers still
in the slots, read in ring order from `readpos & slot_mask`, are exactly the pointers whose
push returned `true`, in push order. -/
theorem fifo_pop_order (k : Nat) (hk : k < 32) (ops : List FifoOp)
    (hops : ∀ op ∈ ops, op.NonNull) :
    ∃ s0, fifo.construct (2 ^ k) = some s0 ∧
      ((FifoRun.fresh s0).exec ops).popped ++ ((FifoRun.fresh s0).exec ops).state.ringContents
        = ((FifoRun.fresh s0).exec ops).pushed := by
  refine ⟨_, construct_pow k hk, ?_⟩
  obtain ⟨q, h, hq⟩ := exec_holds hk ops (FifoRun.fresh _) [] hops (holds_fresh k) rfl
  rw [ringContents_eq h]
  exact hq

/-- Capacity 8: ten pushes, then nine pops; the eight accepted pointers come out in push
order and nothing is left in the slots. -/
theorem fifo_pop_order_witness :
    (3 < 32 ∧ ∀ op ∈ [11, 12, 13, 14, 15, 16, 17, 18, 19, 20].map FifoOp.push ++
        List.replicate 9 FifoOp.pop, op.NonNull) ∧
    (∃ s0, fifo.construct (2 ^ 3) = some s0 ∧
      ((FifoRun.fresh s0).exec ([11, 12, 13, 14, 15, 16, 17, 18, 19, 20].map FifoOp.push ++
          List.replicate 9 FifoOp.pop)).popped ++
        ((FifoRun.fresh s0).exec ([11, 12, 13, 14, 15, 16, 17, 18, 19, 20].map FifoOp.push ++
          List.replicate 9 FifoOp.pop)).state.ringContents
        = ((FifoRun.fresh s0).exec ([11, 12, 13, 14, 15, 16, 17, 18, 19, 20].map FifoOp.push ++
          List.replicate 9 FifoOp.pop)).pushed) ∧
    (fifo.construct 8).map (fun s0 => ((FifoRun.fresh s0).exec
        ([11, 12, 13, 14, 15, 16, 17, 18, 19, 20].map FifoOp.push ++
          List.replicate 9 FifoOp.pop)).popped) = some [11, 12, 13, 14, 15, 16, 17, 18] :=
  ⟨⟨by decide, by decide⟩, fifo_pop_order 3 (by decide) _ (by decide), by decide⟩

/-- C4: for every capacity `2 ^ k` that fits a `std::uint32_t`, in every state reached from a
freshly constructed fifo by pushes of non-null pointers and pops executed one after another,
a push returns `false` exactly when the successful pushes outnumber the successful pops by
the capacity; and with no pops at all, the `i`-th push (from `0`) returns `true` exactly
when `i` is below the capacity. -/
theorem push_false_iff_full (k : Nat) (hk : k < 32) (ops : List FifoOp)
    (hops : ∀ op ∈ ops, op.NonNull) (v : Nat) (hv : v ≠ 0) :
    ∃ s0, fifo.construct (2 ^ k) = some s0 ∧
      ((FifoRun.fresh s0).exec ops).popped.length ≤ ((FifoRun.fresh s0).exec ops).pushed.length ∧
      ((((FifoRun.fresh s0).exec ops).state.push v).1 = false ↔
        ((FifoRun.fresh s0).exec ops).pushed.length -
          ((FifoRun.fresh s0).exec ops).popped.length = 2 ^ k) ∧
      ∀ vs : List Nat, (∀ w ∈ vs, w ≠ 0) →
        (s0.pushAll vs).1 = (List.range vs.length).map (fun i => decide (i < 2 ^ k)) := by
  refine ⟨_, construct_pow k hk, ?_⟩
  obtain ⟨q, h, hq⟩ := exec_holds hk ops (FifoRun.fresh _) [] hops (holds_fresh k) rfl
  have hlen := congrArg List.length hq
  rw [List.length_append] at hlen
  refine ⟨by omega, ?_, ?_⟩
  · by_cases hroom : q.length < 2 ^ k
    · have h1 := (holds_push_room hk h v hv hroom).1
      rw [h1]
      constructor
      · intro hf
        exact Bool.noConfusion hf
      · intro hd
        omega
    · have hfull : q.length = 2 ^ k := Nat.le_antisymm h.len (Nat.le_of_not_lt hroom)
      have h1 := (holds_push_full hk h v hfull).1
      rw [h1]
      constructor
      · intro _
        omega
      · intro _
        rfl
  · intro vs hvs
    have hp := pushAll_holds hk vs _ [] hvs (holds_fresh k)
    simpa using hp

/-- Capacity 8 with no pops: pushes 1 to 8 return `true`, pushes 9 and 10 return `false`. -/
theorem push_false_iff_full_witness :
    (3 < 32 ∧ (∀ op ∈ ([] : List FifoOp), op.NonNull) ∧ (21 : Nat) ≠ 0) ∧
    (∃ s0, fifo.construct 8 = some s0 ∧
      (s0.pushAll [11, 12, 13, 14, 15, 16, 17, 18, 19, 20]).1 =
        [true, true, true, true, true, true, true, true, false, false]) ∧
    (fifo.construct 8).map (fun s0 => (s0.pushAll [11, 12, 13, 14, 15, 16, 17, 18, 19, 20]).1)
      = some [true, true, true, true, true, true, true, true, false, false] := by
  refine ⟨⟨by decide, by decide, by decide⟩, ?_, by decide⟩
  obtain ⟨s0, h0, _, _, hall⟩ := push_false_iff_full 3 (by decide) [] (by decide) 21 (by decide)
  refine ⟨s0, h0, ?_⟩
  rw [hall [11, 12, 13, 14, 15, 16, 17, 18, 19, 20] (by decide)]
  decide

/-- C7, as the claim states it, fails: on a fifo of capacity 4, `push (7); push (7)` leaves
the slots `[7, 7, 0, 0]`; `pop` then returns `true` with the pointer `7`, which was the
content of two slots (`0` and `1`), not of exactly one; slot `0` is emptied and slot `1`
still holds `7`. -/
theorem pop_unique_slot_counterexample :
    (fifo.construct 4).map (fun s => ((s.push 7).2.push 7).2) = some ⟨[7, 7, 0, 0], 3, 0, 2⟩ ∧
    fifo.WF 2 ⟨[7, 7, 0, 0], 3, 0, 2⟩ ∧
    fifo.pop ⟨[7, 7, 0, 0], 3, 0, 2⟩ 0 = (true, 7, ⟨[0, 7, 0, 0], 3, 1, 2⟩) ∧
    (List.range 4).filter (fun j => List.getD [7, 7, 0, 0] j 0 == 7) = [0, 1] ∧
    ¬ ∃! j, j < 4 ∧ List.getD [7, 7, 0, 0] j 0 = (fifo.pop ⟨[7, 7, 0, 0], 3, 0, 2⟩ 0).2.1 := by
  refine ⟨by decide, ⟨rfl, rfl, by decide, by decide⟩, by decide, by decide, ?_⟩
  rintro ⟨j, _, huniq⟩
  have h0 : 0 = j := huniq 0 ⟨by decide, by decide⟩
  have h1 : 1 = j := huniq 1 ⟨by decide, by decide⟩
  exact absurd (h0.trans h1.symm) (by decide)

/-- C7, amended: for every fifo of capacity `2 ^ k` (any slot contents, any 32-bit counters),
`pop` returns `false` exactly when every slot is null, and then no slot changes; when it
returns `true` the pointer handed out is non-null and exactly one slot changes: there is
exactly one slot such that the slot held that pointer, is null afterwards, and every other
slot is unchanged. Other slots may hold the same pointer. -/
theorem pop_false_iff_all_null (k : Nat) (hk : k < 32) (s : fifo) (hs : s.WF k) (res : Nat) :
    ((s.pop res).1 = false ↔ ∀ j, j < 2 ^ k → s.slots.getD j 0 = 0) ∧
    ((s.pop res).1 = false → (s.pop res).2.2.slots = s.slots) ∧
    ((s.pop res).1 = true →
      (s.pop res).2.1 ≠ 0 ∧
      ∃! j, j < 2 ^ k ∧ s.slots.getD j 0 = (s.pop res).2.1 ∧
        (s.pop res).2.2.slots = s.slots.set j 0) := by
  have hpos : 0 < 2 ^ k := Nat.pos_pow_of_pos k (by decide)
  rcases pop_cases k hk s hs res with ⟨hall, hpop⟩ | ⟨i, hi, _, hnn, hpop⟩
  · rw [hpop]
    refine ⟨⟨fun _ => hall, fun _ => rfl⟩, fun _ => rfl, fun hf => Bool.noConfusion hf⟩
  · rw [hpop]
    have hj : (s.readpos + i) % 2 ^ k < 2 ^ k := Nat.mod_lt _ hpos
    refine ⟨⟨fun hf => Bool.noConfusion hf, fun hall => absurd (hall _ hj) hnn⟩,
      fun hf => Bool.noConfusion hf, fun _ => ⟨hnn, ?_⟩⟩
    refine ⟨(s.readpos + i) % 2 ^ k, ⟨hj, rfl, rfl⟩, ?_⟩
    rintro j ⟨hjlt, _, hset⟩
    by_contra hne
    have hval := congrArg (fun l => List.getD l ((s.readpos + i) % 2 ^ k) 0) hset
    simp only [getD_set_eq] at hval
    rw [hs.size] at hval
    simp only [hj, and_self, if_true] at hval
    have hne2 : ¬ (j = (s.readpos + i) % 2 ^ k ∧ j < 2 ^ k) := fun hc => hne hc.1
    simp only [hne2, if_false] at hval
    exact hnn hval.symm

/-- Capacity 4 with slots `[0, 7, 9, 0]` and `readpos = 2 ^ 32 - 1`: the scan probes slot `3`,
wraps the counter, probes slot `0` and takes `7` from slot `1`. -/
theorem pop_false_iff_all_null_witness :
    (2 < 32 ∧ fifo.WF 2 ⟨[0, 7, 9, 0], 3, 4294967295, 5⟩) ∧
    fifo.pop ⟨[0, 7, 9, 0], 3, 4294967295, 5⟩ 0 = (true, 7, ⟨[0, 0, 9, 0], 3, 2, 5⟩) ∧
    ((fifo.pop ⟨[0, 7, 9, 0], 3, 4294967295, 5⟩ 0).1 = false ↔
      ∀ j, j < 2 ^ 2 → List.getD [0, 7, 9, 0] j 0 = 0) := by
  have hwf : fifo.WF 2 ⟨[0, 7, 9, 0], 3, 4294967295, 5⟩ := ⟨rfl, rfl, by decide, by decide⟩
  exact ⟨⟨by decide, hwf⟩, by decide,
    (pop_false_iff_all_null 2 (by decide) ⟨[0, 7, 9, 0], 3, 4294967295, 5⟩ hwf 0).1⟩

/-- C8: the constructor's assertion `(capacity & slot_mask) == 0` passes for `capacity = 0`,
which is neither `>= 1` nor a power of two: `slot_mask` wraps to `2 ^ 32 - 1` and
`0 & slot_mask` is `0`. It fails for capacity `6`. -/
theorem capacityAssert_zero_passes :
    fifo.capacityAssert 0 = true ∧ (fifo.construct 0).isSome = true ∧
      fifo.maskOf 0 = 4294967295 ∧ ¬ (∃ k, 0 = 2 ^ k) ∧ fifo.capacityAssert 6 = false := by
  refine ⟨by decide, by decide, by decide, ?_, by decide⟩
  rintro ⟨k, hk⟩
  exact absurd hk.symm (Nat.ne_of_gt (Nat.pos_pow_of_pos k (by decide)))

/-- C9, as the claim states it, fails: `push` contains no assertion, and on a freshly
constructed fifo of capacity 8 `push (nullptr)` returns `true` and moves `writepos`
from `0` to `1`. -/
theorem push_null_counterexample :
    (fifo.construct 8).map (fun s => s.push 0) =
      some (true, ⟨[0, 0, 0, 0, 0, 0, 0, 0], 7, 0, 1⟩) ∧
    (fifo.construct 8).map (fun s => s.writepos) = some 0 := by
  decide

/-- C9, amended: `push` does not check its argument. For every fifo of capacity `2 ^ k`,
`push (nullptr)` leaves every slot, `slot_mask` and `readpos` unchanged, returns `true`
exactly when some slot is null, and advances `writepos` (modulo `2 ^ 32`) by the number of
slots it probed, which is at least `1` and at most the capacity. -/
theorem push_null_unchecked (k : Nat) (hk : k < 32) (s : fifo) (hs : s.WF k) :
    (s.push 0).2.slots = s.slots ∧ (s.push 0).2.slot_mask = s.slot_mask ∧
    (s.push 0).2.readpos = s.readpos ∧
    ((s.push 0).1 = true ↔ ∃ j, j < 2 ^ k ∧ s.slots.getD j 0 = 0) ∧
    ∃ n, 1 ≤ n ∧ n ≤ 2 ^ k ∧ (s.push 0).2.writepos = (s.writepos + n) % u32 := by
  have hpos : 0 < 2 ^ k := Nat.pos_pow_of_pos k (by decide)
  rcases push_cases k hk s hs 0 with ⟨hall, hpush⟩ | ⟨i, hi, _, hnull, hpush⟩
  · rw [hpush]
    refine ⟨rfl, rfl, rfl, ⟨fun hf => Bool.noConfusion hf, ?_⟩, 2 ^ k, hpos, Nat.le_refl _, rfl⟩
    rintro ⟨j, hj, hz⟩
    exact absurd hz (hall j hj)
  · rw [hpush]
    refine ⟨set_null_of_null _ _ hnull, rfl, rfl,
      ⟨fun _ => ⟨_, Nat.mod_lt _ hpos, hnull⟩, fun _ => rfl⟩, i + 1, Nat.succ_pos i, hi, rfl⟩

/-- Capacity 4 with slots `[5, 0, 6, 0]` and `writepos = 4`: `push (nullptr)` probes slot `0`,
finds slot `1` null, returns `true` and leaves the slots as they were. -/
theorem push_null_unchecked_witness :
    (2 < 32 ∧ fifo.WF 2 ⟨[5, 0, 6, 0], 3, 1, 4⟩) ∧
    fifo.push ⟨[5, 0, 6, 0], 3, 1, 4⟩ 0 = (true, ⟨[5, 0, 6, 0], 3, 1, 6⟩) ∧
    (fifo.push ⟨[5, 0, 6, 0], 3, 1, 4⟩ 0).2.slots = [5, 0, 6, 0] := by
  have hwf : fifo.WF 2 ⟨[5, 0, 6, 0], 3, 1, 4⟩ := ⟨rfl, rfl, by decide, by decide⟩
  exact ⟨⟨by decide, hwf⟩, by decide,
    (push_null_unchecked 2 (by decide) ⟨[5, 0, 6, 0], 3, 1, 4⟩ hwf).1⟩

/-- C15: for every capacity `2 ^ k` with `k < 32` (so `1 <= c <= 2 ^ 31`) and every 32-bit
counter value `x`, the slot indices `((x + i) mod 2 ^ 32) & (c - 1)` probed for
`i = 0 .. c - 1` are pairwise distinct, lie below `c`, reach every slot, and each is the
cyclic successor of the one before (also across the wrap of the counter at `2 ^ 32`); the
first one is `x & (c - 1)`, and `((x + c) mod 2 ^ 32) & (c - 1) = x & (c - 1)`. A push or a
pop that fails all its probes leaves the masked index of its counter unchanged. -/
theorem probe_indices_cover (k : Nat) (hk : k < 32) (x : Nat) (hx : x < u32) :
    (∀ i j, i < 2 ^ k → j < 2 ^ k →
      fifo.probe x i (fifo.maskOf (2 ^ k)) = fifo.probe x j (fifo.maskOf (2 ^ k)) → i = j) ∧
    (∀ slot, slot < 2 ^ k → ∃ i, i < 2 ^ k ∧ fifo.probe x i (fifo.maskOf (2 ^ k)) = slot) ∧
    (∀ i, fifo.probe x i (fifo.maskOf (2 ^ k)) < 2 ^ k) ∧
    (∀ i, fifo.probe x (i + 1) (fifo.maskOf (2 ^ k)) =
      (fifo.probe x i (fifo.maskOf (2 ^ k)) + 1) % 2 ^ k) ∧
    fifo.probe x 0 (fifo.maskOf (2 ^ k)) = x &&& fifo.maskOf (2 ^ k) ∧
    ((x + 2 ^ k) % u32) &&& fifo.maskOf (2 ^ k) = x &&& fifo.maskOf (2 ^ k) ∧
    (∀ (s : fifo) (v : Nat), s.WF k → (s.push v).1 = false →
      (s.push v).2.writepos &&& s.slot_mask = s.writepos &&& s.slot_mask) ∧
    (∀ (s : fifo) (res : Nat), s.WF k → (s.pop res).1 = false →
      (s.pop res).2.2.readpos &&& s.slot_mask = s.readpos &&& s.slot_mask) := by
  have hpos : 0 < 2 ^ k := Nat.pos_pow_of_pos k (by decide)
  have hc : 2 ^ k ∣ u32 := pow_dvd_u32 k hk
  rw [maskOf_pow k hk]
  refine ⟨?_, ?_, ?_, ?_, probe_zero x _ hx, ?_, ?_, ?_⟩
  · intro i j hi hj h
    rw [probe_pow hk, probe_pow hk] at h
    exact add_mod_cancel_lt hi hj h
  · intro slot hslot
    obtain ⟨i, hi, h⟩ := ring_cover x slot hslot
    exact ⟨i, hi, by rw [probe_pow hk]; exact h⟩
  · intro i
    rw [probe_pow hk]
    exact Nat.mod_lt _ hpos
  · intro i
    rw [probe_pow hk, probe_pow hk, Nat.mod_add_mod, Nat.add_assoc]
  · rw [land_mask, land_mask, Nat.mod_mod_of_dvd _ hc, Nat.add_mod_right]
  · intro s v hs hf
    rcases push_cases k hk s hs v with ⟨_, hpush⟩ | ⟨i, _, _, _, hpush⟩
    · rw [hpush, hs.mask]
      show (s.writepos + 2 ^ k) % u32 &&& (2 ^ k - 1) = _
      rw [land_mask, land_mask, Nat.mod_mod_of_dvd _ hc, Nat.add_mod_right]
    · rw [hpush] at hf
      exact Bool.noConfusion hf
  · intro s res hs hf
    rcases pop_cases k hk s hs res with ⟨_, hpop⟩ | ⟨i, _, _, _, hpop⟩
    · rw [hpop, hs.mask]
      show (s.readpos + 2 ^ k) % u32 &&& (2 ^ k - 1) = _
      rw [land_mask, land_mask, Nat.mod_mod_of_dvd _ hc, Nat.add_mod_right]
    · rw [hpop] at hf
      exact Bool.noConfusion hf

/-- Capacity 4 and counter `2 ^ 32 - 2`: the four probes hit the slots `2, 3, 0, 1`, the
counter wrapping between the second and the third. -/
theorem probe_indices_cover_witness :
    (2 < 32 ∧ 4294967294 < u32) ∧
    (List.range 4).map (fun i => fifo.probe 4294967294 i (fifo.maskOf 4)) = [2, 3, 0, 1] ∧
    (∀ i j, i < 2 ^ 2 → j < 2 ^ 2 →
      fifo.probe 4294967294 i (fifo.maskOf (2 ^ 2)) =
        fifo.probe 4294967294 j (fifo.maskOf (2 ^ 2)) → i = j) ∧
    ((4294967294 + 2 ^ 2) % u32) &&& fifo.maskOf (2 ^ 2) = 4294967294 &&& fifo.maskOf (2 ^ 2) :=
  ⟨⟨by decide, by decide⟩, by decide,
    (probe_indices_cover 2 (by decide) 4294967294 (by decide)).1,
    (probe_indices_cover 2 (by decide) 4294967294 (by decide)).2.2.2.2.2.1⟩

/-! ## Lemmas: `RealtimeMutatable`, complete operations -/

theorem settled_construct {T : Type} (v0 : T) : (RealtimeMutatable.construct v0).Settled v0 :=
  ⟨rfl, Or.inl ⟨rfl, rfl⟩⟩

theorem settled_publish {T : Type} (s : RealtimeMutatable T) (latest v : T)
    (h : s.Settled latest) : ((s.realtimeAssign v).realtimeRelease).Settled v := by
  obtain ⟨c, d0, d1, rc, l⟩ := s
  obtain ⟨hl, hc⟩ := h
  simp only at hl hc
  subst hl
  rcases hc with ⟨hc, _⟩ | ⟨hc, _⟩ | ⟨hc, _⟩ | ⟨hc, _⟩ <;> subst hc <;>
    simp [RealtimeMutatable.Settled, RealtimeMutatable.realtimeRelease,
      RealtimeMutatable.fetchOrBusy, RealtimeMutatable.copyToSlot,
      RealtimeMutatable.storeControl, RealtimeMutatable.setData,
      RealtimeMutatable.realtimeAssign, INDEX_BIT, BUSY_BIT, NEWDATA_BIT]

theorem settled_read {T : Type} (fuel : Nat) (s : RealtimeMutatable T) (latest : T)
    (h : s.Settled latest) :
    ∃ s1, s.nonRealtimeAcquire (fuel + 1) = some (latest, s1) ∧
      s1.nonRealtimeRelease.Settled latest := by
  obtain ⟨c, d0, d1, rc, l⟩ := s
  obtain ⟨hl, hc⟩ := h
  simp only at hl hc
  subst hl
  have e4 : (4 : Nat) &&& 4294967293 = 4 := by decide
  have e5 : (5 : Nat) &&& 4294967293 = 5 := by decide
  rcases hc with ⟨hc, hd⟩ | ⟨hc, hd⟩ | ⟨hc, hd⟩ | ⟨hc, hd⟩ <;> subst hc <;> subst hd <;>
    simp [e4, e5, RealtimeMutatable.Settled, RealtimeMutatable.nonRealtimeAcquire,
      RealtimeMutatable.casLoop, RealtimeMutatable.casAttempt,
      RealtimeMutatable.nonRealtimeIndex, RealtimeMutatable.nonRealtimeRelease,
      RealtimeMutatable.dataAt, INDEX_BIT, BUSY_BIT, NEWDATA_BIT, NOT_BUSY]

theorem run_settled {T : Type} (fuel : Nat) (ops : List (RMOp T)) :
    ∀ (s : RealtimeMutatable T) (latest : T), s.Settled latest →
      ∃ s1, RealtimeMutatable.run (fuel + 1) s ops = some (latestPublished latest ops, s1) := by
  induction ops with
  | nil => intro s latest _; exact ⟨s, rfl⟩
  | cons op ops ih =>
    intro s latest h
    cases op with
    | publish v =>
      obtain ⟨s1, h1⟩ := ih _ v (settled_publish s latest v h)
      exact ⟨s1, by simp [RealtimeMutatable.run, RMOp.exec, h1, latestPublished]⟩
    | read =>
      obtain ⟨s1, h1, h2⟩ := settled_read fuel s latest h
      obtain ⟨s2, h3⟩ := ih _ latest h2
      exact ⟨s2, by simp [RealtimeMutatable.run, RMOp.exec, h1, h3, latestPublished]⟩

theorem unwritten_pair {T : Type} (fuel : Nat) (s : RealtimeMutatable T) (v : T)
    (p : RMPair) (h : s.Unwritten v) :
    ∃ s1, p.exec (fuel + 1) s = some s1 ∧ s1.Unwritten v := by
  obtain ⟨c, d0, d1, rc, l⟩ := s
  obtain ⟨h0, h1, h2, hl, hc⟩ := h
  simp only at h0 h1 h2 hl hc
  subst h0 h1 h2 hl
  have e4 : (4 : Nat) &&& 4294967293 = 4 := by decide
  have e5 : (5 : Nat) &&& 4294967293 = 5 := by decide
  cases p with
  | realtime =>
    rcases hc with hc | hc | hc | hc <;> subst hc <;>
      simp [RMPair.exec, RealtimeMutatable.Unwritten, RealtimeMutatable.realtimeRelease,
        RealtimeMutatable.fetchOrBusy, RealtimeMutatable.copyToSlot,
        RealtimeMutatable.storeControl, RealtimeMutatable.setData, INDEX_BIT, BUSY_BIT,
        NEWDATA_BIT]
  | nonRealtime =>
    rcases hc with hc | hc | hc | hc <;> subst hc <;>
      simp [e4, e5, RMPair.exec, RealtimeMutatable.Unwritten,
        RealtimeMutatable.nonRealtimeAcquire, RealtimeMutatable.casLoop,
        RealtimeMutatable.casAttempt, RealtimeMutatable.nonRealtimeIndex,
        RealtimeMutatable.nonRealtimeRelease, RealtimeMutatable.dataAt, INDEX_BIT, BUSY_BIT,
        NEWDATA_BIT, NOT_BUSY]

theorem runPairs_unwritten {T : Type} (fuel : Nat) (ps : List RMPair) :
    ∀ (s : RealtimeMutatable T) (v : T), s.Unwritten v →
      ∃ s1, RealtimeMutatable.runPairs (fuel + 1) s ps = some s1 ∧ s1.Unwritten v := by
  induction ps with
  | nil => intro s v h; exact ⟨s, rfl, h⟩
  | cons p ps ih =>
    intro s v h
    obtain ⟨s1, h1, h2⟩ := unwritten_pair fuel s v p h
    obtain ⟨s2, h3, h4⟩ := ih s1 v h2
    exact ⟨s2, by simp only [RealtimeMutatable.runPairs, h1, h3], h4⟩

theorem nonRealtime_pair_fixed {T : Type} (fuel : Nat) (v : T) :
    RMPair.nonRealtime.exec (fuel + 1) (RealtimeMutatable.construct v)
      = some (RealtimeMutatable.construct v) := by
  simp [RMPair.exec, RealtimeMutatable.construct, RealtimeMutatable.nonRealtimeAcquire,
    RealtimeMutatable.nonRealtimeRelease, NEWDATA_BIT]

theorem runPairs_nonRealtime {T : Type} (fuel : Nat) (v : T) (ps : List RMPair)
    (h : ∀ p ∈ ps, p = RMPair.nonRealtime) :
    RealtimeMutatable.runPairs (fuel + 1) (RealtimeMutatable.construct v) ps
      = some (RealtimeMutatable.construct v) := by
  induction ps with
  | nil => rfl
  | cons p ps ih =>
    have hp : p = RMPair.nonRealtime := h p (List.mem_cons_self p ps)
    subst hp
    simp only [RealtimeMutatable.runPairs, nonRealtime_pair_fixed]
    exact ih (fun q hq => h q (List.mem_cons_of_mem _ hq))

theorem settled_latestSlot {T : Type} (s : RealtimeMutatable T) (latest : T)
    (h : s.Settled latest) : s.dataAt s.latestSlot = latest := by
  obtain ⟨c, d0, d1, rc, l⟩ := s
  obtain ⟨_, hc⟩ := h
  simp only at hc
  rcases hc with ⟨hc, hd⟩ | ⟨hc, hd⟩ | ⟨hc, hd⟩ | ⟨hc, hd⟩ <;> subst hc <;> subst hd <;>
    simp [RealtimeMutatable.latestSlot, RealtimeMutatable.dataAt, INDEX_BIT, NEWDATA_BIT]

theorem settled_publish_slot {T : Type} (s : RealtimeMutatable T) (latest v : T)
    (h : s.Settled latest) :
    ((s.realtimeAssign v).realtimeRelease).control &&& NEWDATA_BIT ≠ 0 ∧
    ((s.realtimeAssign v).realtimeRelease).dataAt
      (((s.realtimeAssign v).realtimeRelease).control &&& INDEX_BIT) = v := by
  obtain ⟨c, d0, d1, rc, l⟩ := s
  obtain ⟨_, hc⟩ := h
  simp only at hc
  rcases hc with ⟨hc, _⟩ | ⟨hc, _⟩ | ⟨hc, _⟩ | ⟨hc, _⟩ <;> subst hc <;>
    simp [RealtimeMutatable.realtimeRelease, RealtimeMutatable.fetchOrBusy,
      RealtimeMutatable.copyToSlot, RealtimeMutatable.storeControl, RealtimeMutatable.setData,
      RealtimeMutatable.realtimeAssign, RealtimeMutatable.dataAt, INDEX_BIT, BUSY_BIT,
      NEWDATA_BIT]

theorem settled_read_slot {T : Type} (fuel : Nat) (s : RealtimeMutatable T) (latest : T)
    (h : s.Settled latest) :
    ∃ s1, s.nonRealtimeAcquire (fuel + 1) = some (latest, s1) ∧
      s1.control &&& NEWDATA_BIT = 0 ∧
      s1.dataAt ((s1.control &&& INDEX_BIT) ^^^ 1) = latest := by
  obtain ⟨c, d0, d1, rc, l⟩ := s
  obtain ⟨hl, hc⟩ := h
  simp only at hl hc
  subst hl
  have e4 : (4 : Nat) &&& 4294967293 = 4 := by decide
  have e5 : (5 : Nat) &&& 4294967293 = 5 := by decide
  rcases hc with ⟨hc, hd⟩ | ⟨hc, hd⟩ | ⟨hc, hd⟩ | ⟨hc, hd⟩ <;> subst hc <;> subst hd <;>
    simp [e4, e5, RealtimeMutatable.nonRealtimeAcquire, RealtimeMutatable.casLoop,
      RealtimeMutatable.casAttempt, RealtimeMutatable.nonRealtimeIndex,
      RealtimeMutatable.dataAt, INDEX_BIT, BUSY_BIT, NEWDATA_BIT, NOT_BUSY]

theorem run_state_settled {T : Type} (fuel : Nat) (ops : List (RMOp T)) :
    ∀ (s : RealtimeMutatable T) (latest : T), s.Settled latest →
      ∃ s1, RealtimeMutatable.run (fuel + 1) s ops = some (latestPublished latest ops, s1) ∧
        s1.Settled (lastPublish latest ops) := by
  induction ops with
  | nil => intro s latest h; exact ⟨s, rfl, h⟩
  | cons op ops ih =>
    intro s latest h
    cases op with
    | publish v =>
      obtain ⟨s1, h1, h2⟩ := ih _ v (settled_publish s latest v h)
      exact ⟨s1, by simp [RealtimeMutatable.run, RMOp.exec, h1, latestPublished], h2⟩
    | read =>
      obtain ⟨s1, h1, h2⟩ := settled_read fuel s latest h
      obtain ⟨s2, h3, h4⟩ := ih _ latest h2
      exact ⟨s2, by simp [RealtimeMutatable.run, RMOp.exec, h1, h3, latestPublished], h4⟩

/-! ## Lemmas: `RealtimeMutatable`, interleaved execution -/

theorem bits_fetch_or (c : Nat) (hc : c < 8) :
    (c ||| BUSY_BIT) < 8 ∧ (c ||| BUSY_BIT) &&& INDEX_BIT = c &&& INDEX_BIT ∧
      (c ||| BUSY_BIT) &&& BUSY_BIT = BUSY_BIT := by
  unfold BUSY_BIT INDEX_BIT
  interval_cases c <;> decide

theorem bits_store (c : Nat) (hc : c < 8) :
    ((c &&& INDEX_BIT) &&& INDEX_BIT ||| NEWDATA_BIT) < 8 ∧
      ((c &&& INDEX_BIT) &&& INDEX_BIT ||| NEWDATA_BIT) &&& INDEX_BIT = c &&& INDEX_BIT ∧
      ((c &&& INDEX_BIT) &&& INDEX_BIT ||| NEWDATA_BIT) &&& BUSY_BIT = 0 := by
  unfold BUSY_BIT INDEX_BIT NEWDATA_BIT
  interval_cases c <;> decide

theorem bits_flip (c : Nat) (hc : c < 8) :
    ((c ^^^ INDEX_BIT) &&& INDEX_BIT) < 8 ∧
      ((c ^^^ INDEX_BIT) &&& INDEX_BIT) &&& BUSY_BIT = 0 := by
  unfold BUSY_BIT INDEX_BIT
  interval_cases c <;> decide

theorem bits_not_busy (x : Nat) : (x &&& NOT_BUSY) &&& BUSY_BIT = 0 := by
  rw [Nat.land_assoc, show NOT_BUSY &&& BUSY_BIT = 0 by decide, Nat.and_zero]

theorem bits_index_ne (c : Nat) (hc : c < 8) :
    RealtimeMutatable.nonRealtimeIndex c ≠ c &&& INDEX_BIT := by
  unfold RealtimeMutatable.nonRealtimeIndex INDEX_BIT
  interval_cases c <;> decide

theorem inv_init {T : Type} (v0 : T) : (RMSys.init v0).Inv where
  bound := Nat.succ_pos 7
  writer := show (0 : Nat) &&& BUSY_BIT = 0 by decide
  mutex := fun t ht => absurd rfl ht
  single := fun t1 _ ht => absurd rfl ht
  slot := fun t idx ht => ReaderPc.noConfusion ht

theorem inv_writer {T : Type} (s s1 : RMSys T) (h : s.Inv)
    (hs : s.step .writer = some s1) : s1.Inv := by
  obtain ⟨obj, wpc, rpc⟩ := s
  obtain ⟨hb, hw, hm, hu, hsl⟩ := h
  simp only at hb hw hm hu hsl
  cases wpc with
  | idle =>
    simp only [RMSys.step, Option.some.injEq] at hs
    subst hs
    obtain ⟨b1, b2, b3⟩ := bits_fetch_or obj.control hb
    refine ⟨b1, ⟨b2.symm, b3⟩, hm, hu, ?_⟩
    intro t idx ht
    rw [hsl t idx ht]
    simp only [RealtimeMutatable.nonRealtimeIndex, RealtimeMutatable.fetchOrBusy, b2]
  | copying idx =>
    simp only [RMSys.step, Option.some.injEq] at hs
    subst hs
    have hc : (obj.copyToSlot idx).control = obj.control := by
      unfold RealtimeMutatable.copyToSlot RealtimeMutatable.setData
      split <;> rfl
    have hl : (obj.copyToSlot idx).locked = obj.locked := by
      unfold RealtimeMutatable.copyToSlot RealtimeMutatable.setData
      split <;> rfl
    refine ⟨?_, ?_, ?_, hu, ?_⟩
    · simp only [hc]; exact hb
    · simp only [hc]; exact hw
    · intro t ht
      simp only [hl]
      exact hm t ht
    · intro t i ht
      simp only [hc]
      exact hsl t i ht
  | storing idx =>
    simp only [RMSys.step, Option.some.injEq] at hs
    subst hs
    obtain ⟨hidx, _⟩ := hw
    obtain ⟨b1, b2, b3⟩ := bits_store obj.control hb
    subst hidx
    refine ⟨b1, b3, hm, hu, ?_⟩
    intro t i ht
    rw [hsl t i ht]
    simp only [RealtimeMutatable.nonRealtimeIndex, RealtimeMutatable.storeControl, b2]

theorem inv_assign {T : Type} (s s1 : RMSys T) (v : T) (h : s.Inv)
    (hs : s.step (.assign v) = some s1) : s1.Inv := by
  obtain ⟨obj, wpc, rpc⟩ := s
  obtain ⟨hb, hw, hm, hu, hsl⟩ := h
  cases wpc with
  | idle =>
    simp only [RMSys.step, Option.some.injEq] at hs
    subst hs
    exact ⟨hb, hw, hm, hu, hsl⟩
  | copying idx => simp [RMSys.step] at hs
  | storing idx => simp [RMSys.step] at hs

theorem inv_reader {T : Type} (s s1 : RMSys T) (tid : Nat) (spurious : Bool) (h : s.Inv)
    (hs : s.step (.reader tid spurious) = some s1) : s1.Inv := by
  obtain ⟨obj, wpc, rpc⟩ := s
  obtain ⟨hb, hw, hm, hu, hsl⟩ := h
  simp only at hb hw hm hu hsl
  have others : ∀ t, rpc tid ≠ .idle → t ≠ tid → rpc t = .idle := by
    intro t htid hne
    by_contra hcon
    exact hne (hu t tid hcon htid)
  cases hpc : rpc tid with
  | idle =>
    simp only [RMSys.step, hpc] at hs
    by_cases hlk : obj.locked = true
    · simp [hlk] at hs
    · simp only [hlk, Bool.false_eq_true, if_false, Option.some.injEq] at hs
      subst hs
      have hall : ∀ t, rpc t = .idle := by
        intro t
        by_contra hcon
        exact hlk (hm t hcon)
      refine ⟨hb, hw, fun _ _ => rfl, ?_, ?_⟩
      · intro t1 t2 h1 h2
        simp only [Function.update_apply] at h1 h2
        by_cases e1 : t1 = tid
        · by_cases e2 : t2 = tid
          · rw [e1, e2]
          · simp only [e2, if_false] at h2
            exact absurd (hall t2) h2
        · simp only [e1, if_false] at h1
          exact absurd (hall t1) h1
      · intro t idx ht
        simp only [Function.update_apply] at ht
        by_cases e1 : t = tid
        · simp only [e1, if_true] at ht
          exact ReaderPc.noConfusion ht
        · simp only [e1, if_false] at ht
          rw [hall t] at ht
          exact ReaderPc.noConfusion ht
  | locked =>
    have hne : rpc tid ≠ .idle := by rw [hpc]; exact fun hc => ReaderPc.noConfusion hc
    simp only [RMSys.step, hpc, Option.some.injEq] at hs
    subst hs
    refine ⟨hb, hw, fun _ _ => hm tid hne, ?_, ?_⟩
    · intro t1 t2 h1 h2
      simp only [Function.update_apply] at h1 h2
      by_cases e1 : t1 = tid
      · by_cases e2 : t2 = tid
        · rw [e1, e2]
        · simp only [e2, if_false] at h2
          exact absurd (others t2 hne e2) h2
      · simp only [e1, if_false] at h1
        exact absurd (others t1 hne e1) h1
    · intro t idx ht
      simp only [Function.update_apply] at ht
      by_cases e1 : t = tid
      · simp only [e1, if_true] at ht
        by_cases hnew : obj.control &&& NEWDATA_BIT = 0
        · simp only [ne_eq, hnew, not_true_eq_false, if_false, ReaderPc.holding.injEq] at ht
          exact ht.symm
        · simp only [ne_eq, hnew, not_false_eq_true, if_true] at ht
          exact ReaderPc.noConfusion ht
      · simp only [e1, if_false] at ht
        rw [others t hne e1] at ht
        exact ReaderPc.noConfusion ht
  | spinning current =>
    have hne : rpc tid ≠ .idle := by rw [hpc]; exact fun hc => ReaderPc.noConfusion hc
    simp only [RMSys.step, hpc, Option.some.injEq] at hs
    subst hs
    by_cases hcas : obj.control = current &&& NOT_BUSY ∧ spurious = false
    · have hclear : obj.control &&& BUSY_BIT = 0 := by
        rw [hcas.1]
        exact bits_not_busy current
      have hidle : wpc = .idle := by
        cases wpc with
        | idle => rfl
        | copying i => exact absurd (hw.2.symm.trans hclear) (by decide)
        | storing i => exact absurd (hw.2.symm.trans hclear) (by decide)
      have hflip := bits_flip obj.control hb
      rw [hcas.1] at hflip
      subst hidle
      simp only [RealtimeMutatable.casAttempt, hcas, and_self, if_true]
      refine ⟨hflip.1, hflip.2, fun _ _ => hm tid hne, ?_, ?_⟩
      · intro t1 t2 h1 h2
        simp only [Function.update_apply] at h1 h2
        by_cases e1 : t1 = tid
        · by_cases e2 : t2 = tid
          · rw [e1, e2]
          · simp only [e2, if_false] at h2
            exact absurd (others t2 hne e2) h2
        · simp only [e1, if_false] at h1
          exact absurd (others t1 hne e1) h1
      · intro t idx ht
        simp only [Function.update_apply] at ht
        by_cases e1 : t = tid
        · simp only [e1, if_true, ReaderPc.holding.injEq] at ht
          exact ht.symm
        · simp only [e1, if_false] at ht
          rw [others t hne e1] at ht
          exact ReaderPc.noConfusion ht
    · simp only [RealtimeMutatable.casAttempt, hcas, if_false]
      refine ⟨hb, hw, fun _ _ => hm tid hne, ?_, ?_⟩
      · intro t1 t2 h1 h2
        simp only [Function.update_apply] at h1 h2
        by_cases e1 : t1 = tid
        · by_cases e2 : t2 = tid
          · rw [e1, e2]
          · simp only [e2, if_false] at h2
            exact absurd (others t2 hne e2) h2
        · simp only [e1, if_false] at h1
          exact absurd (others t1 hne e1) h1
      · intro t idx ht
        simp only [Function.update_apply] at ht
        by_cases e1 : t = tid
        · simp only [e1, if_true] at ht
          exact ReaderPc.noConfusion ht
        · simp only [e1, if_false] at ht
          rw [others t hne e1] at ht
          exact ReaderPc.noConfusion ht
  | holding i =>
    have hne : rpc tid ≠ .idle := by rw [hpc]; exact fun hc => ReaderPc.noConfusion hc
    simp only [RMSys.step, hpc, Option.some.injEq] at hs
    subst hs
    have hall : ∀ t, Function.update rpc tid ReaderPc.idle t = .idle := by
      intro t
      simp only [Function.update_apply]
      by_cases e1 : t = tid
      · simp only [e1, if_true]
      · simp only [e1, if_false]
        exact others t hne e1
    refine ⟨hb, hw, fun t ht => absurd (hall t) ht, fun t1 _ h1 _ => absurd (hall t1) h1, ?_⟩
    intro t idx ht
    have ht2 : Function.update rpc tid ReaderPc.idle t = .holding idx := ht
    rw [hall t] at ht2
    exact ReaderPc.noConfusion ht2

theorem inv_run {T : Type} (acts : List (RMAction T)) :
    ∀ (s s1 : RMSys T), s.Inv → s.run acts = some s1 → s1.Inv := by
  induction acts with
  | nil =>
    intro s s1 h hs
    simp only [RMSys.run, Option.some.injEq] at hs
    subst hs
    exact h
  | cons a acts ih =>
    intro s s1 h hs
    simp only [RMSys.run] at hs
    cases hstep : s.step a with
    | none => simp [hstep] at hs
    | some s2 =>
      simp only [hstep] at hs
      have h2 : s2.Inv := by
        cases a with
        | assign v => exact inv_assign s s2 v h hstep
        | writer => exact inv_writer s s2 h hstep
        | reader tid sp => exact inv_reader s s2 tid sp h hstep
      exact ih s2 s1 h2 hs

/-! ## Theorems: `RealtimeMutatable`, complete operations -/

/-- C2: for every `RealtimeMutatable` constructed from `v0` and every sequence of complete
operations executed one after another (publishes and non-realtime reads), every read
completes (one loop iteration is enough) and obtains the value of the most recent completed
publish, or `v0` if there was none. With `v0 = 0` and publishes `1, 2, 3` each followed by a
read, the reads are `1, 2, 3`. -/
theorem read_sees_latest_publish :
    (∀ (T : Type) (v0 : T) (ops : List (RMOp T)) (fuel : Nat),
      (RealtimeMutatable.run (fuel + 1) (RealtimeMutatable.construct v0) ops).map Prod.fst
        = some (latestPublished v0 ops)) ∧
    (RealtimeMutatable.run 1 (RealtimeMutatable.construct (0 : Nat))
        [.publish 1, .read, .publish 2, .read, .publish 3, .read]).map Prod.fst
      = some [1, 2, 3] := by
  constructor
  · intro T v0 ops fuel
    obtain ⟨s1, h⟩ := run_settled fuel ops _ v0 (settled_construct v0)
    rw [h]
    rfl
  · decide

/-- C11, as the claim states it, fails: on an object constructed from `0`, one
`realtimeAcquire`/`realtimeRelease` pair that writes nothing leaves the control word at
`4` (`NEWDATA_BIT`), not at `0`; a following non-realtime pair leaves it at `1`. -/
theorem pairs_restore_counterexample :
    (RealtimeMutatable.construct (0 : Nat)).control = 0 ∧
    (RealtimeMutatable.runPairs 1 (RealtimeMutatable.construct (0 : Nat)) [.realtime]).map
      (fun s => s.control) = some 4 ∧
    (RealtimeMutatable.runPairs 1 (RealtimeMutatable.construct (0 : Nat))
      [.realtime, .nonRealtime]).map (fun s => s.control) = some 1 := by
  decide

/-- C11, amended: for every `RealtimeMutatable` constructed from `v`, every sequence of
acquire/release pairs that do not write the value runs to completion and leaves `data[0]`,
`data[1]` and `realtimeCopy` equal to `v` and the mutex free; the control word has
`BUSY_BIT` clear (it is `0`, `1`, `4` or `5`) but need not be `0`. When all the pairs are
non-realtime pairs the whole state is the one right after construction. -/
theorem pairs_keep_value {T : Type} (v : T) (ps : List RMPair) (fuel : Nat) :
    ∃ s, RealtimeMutatable.runPairs (fuel + 1) (RealtimeMutatable.construct v) ps = some s ∧
      s.data0 = v ∧ s.data1 = v ∧ s.realtimeCopy = v ∧ s.locked = false ∧
      (s.control = 0 ∨ s.control = 1 ∨ s.control = 4 ∨ s.control = 5) ∧
      ((∀ p ∈ ps, p = RMPair.nonRealtime) → s = RealtimeMutatable.construct v) := by
  obtain ⟨s, hs, h0, h1, h2, hl, hc⟩ := runPairs_unwritten fuel ps
    (RealtimeMutatable.construct v) v ⟨rfl, rfl, rfl, rfl, Or.inl rfl⟩
  refine ⟨s, hs, h0, h1, h2, hl, hc, ?_⟩
  intro hall
  have h := runPairs_nonRealtime fuel v ps hall
  rw [hs] at h
  exact Option.some.inj h

/-- Three non-realtime pairs leave an object constructed from `7` exactly as constructed;
with a realtime pair in front the value is kept and the control word ends at `1`. -/
theorem pairs_keep_value_witness :
    (∀ p ∈ [RMPair.nonRealtime, RMPair.nonRealtime, RMPair.nonRealtime],
      p = RMPair.nonRealtime) ∧
    RealtimeMutatable.runPairs 1 (RealtimeMutatable.construct (7 : Nat))
      [.nonRealtime, .nonRealtime, .nonRealtime] = some (RealtimeMutatable.construct 7) ∧
    RealtimeMutatable.runPairs 1 (RealtimeMutatable.construct (7 : Nat))
      [.realtime, .nonRealtime, .nonRealtime] = some ⟨1, 7, 7, 7, false⟩ := by
  refine ⟨by decide, ?_, by decide⟩
  obtain ⟨s, hs, _, _, _, _, _, hfix⟩ := pairs_keep_value (7 : Nat)
    [.nonRealtime, .nonRealtime, .nonRealtime] 0
  rw [hs, hfix (by decide)]

/-- C13, as the claim states it, fails: on an object constructed from `0`, after the
publish of `1` and one non-realtime acquire/release pair, `data[control & INDEX_BIT]` is
`data[1]`, which still holds `0`; the published `1` is in `data[0]`. -/
theorem index_slot_latest_counterexample :
    (RealtimeMutatable.run 1 (RealtimeMutatable.construct (0 : Nat))
      [.publish 1, .read]).map (fun r => (r.2.control, r.2.data0, r.2.data1))
        = some (1, 1, 0) ∧
    (RealtimeMutatable.run 1 (RealtimeMutatable.construct (0 : Nat))
      [.publish 1, .read]).map (fun r => r.2.dataAt (r.2.control &&& INDEX_BIT)) = some 0 ∧
    lastPublish (0 : Nat) [.publish 1, .read] = 1 := by
  decide

/-- C13, amended: in every state reached by complete operations executed one after another,
the most recently published value (the constructor's value if there was no publish) is held
by `data[control & INDEX_BIT]` while `NEWDATA_BIT` is set and by
`data[(control & INDEX_BIT) XOR 1]` while it is clear. `NEWDATA_BIT` is set when a
`realtimeRelease` completes, so the value is then in `data[control & INDEX_BIT]`; the next
`nonRealtimeAcquire` clears it, and from then on the value is in the other slot. -/
theorem latest_slot_holds_publish {T : Type} (v0 : T) (ops : List (RMOp T)) (fuel : Nat) :
    ∃ rs s, RealtimeMutatable.run (fuel + 1) (RealtimeMutatable.construct v0) ops
        = some (rs, s) ∧
      s.dataAt s.latestSlot = lastPublish v0 ops ∧
      (∀ v, ((s.realtimeAssign v).realtimeRelease).control &&& NEWDATA_BIT ≠ 0 ∧
        ((s.realtimeAssign v).realtimeRelease).dataAt
          (((s.realtimeAssign v).realtimeRelease).control &&& INDEX_BIT) = v) ∧
      (∃ s1, s.nonRealtimeAcquire (fuel + 1) = some (lastPublish v0 ops, s1) ∧
        s1.control &&& NEWDATA_BIT = 0 ∧
        s1.dataAt ((s1.control &&& INDEX_BIT) ^^^ 1) = lastPublish v0 ops) := by
  obtain ⟨s, hs, hset⟩ := run_state_settled fuel ops _ v0 (settled_construct v0)
  exact ⟨_, s, hs, settled_latestSlot s _ hset,
    fun v => settled_publish_slot s _ v hset, settled_read_slot fuel s _ hset⟩

/-! ## Theorems: `RealtimeMutatable`, interleaved execution -/

/-- C5: in every state reachable by interleaving the three statements of `realtimeRelease`
(and assignments to `realtimeCopy`) with the steps of `nonRealtimeAcquire` and
`nonRealtimeRelease` of readers serialised by the mutex, a reader that has obtained
`data[idx]` and not yet released it holds the slot at index `(control & INDEX_BIT) XOR 1`,
which differs from `control & INDEX_BIT`; and when the writer is inside `realtimeRelease`
the index it writes is `control & INDEX_BIT`, hence not the reader's slot. -/
theorem reader_slot_disjoint {T : Type} (v0 : T) (acts : List (RMAction T)) (s : RMSys T)
    (hrun : (RMSys.init v0).run acts = some s) (tid idx : Nat)
    (hhold : s.rpc tid = .holding idx) :
    idx = (s.obj.control &&& INDEX_BIT) ^^^ 1 ∧
    idx ≠ s.obj.control &&& INDEX_BIT ∧
    ∀ widx, (s.wpc = .copying widx ∨ s.wpc = .storing widx) →
      widx = s.obj.control &&& INDEX_BIT ∧ widx ≠ idx := by
  have h := inv_run acts _ s (inv_init v0) hrun
  have hidx := h.slot tid idx hhold
  have hne := bits_index_ne s.obj.control h.bound
  rw [← hidx] at hne
  refine ⟨hidx, hne, ?_⟩
  intro widx hw
  have hag := h.writer
  rcases hw with hw | hw <;> rw [hw] at hag
  · exact ⟨hag.1, fun hc => hne (hc ▸ hag.1)⟩
  · exact ⟨hag.1, fun hc => hne (hc ▸ hag.1)⟩

/-- A schedule in which reader `0` starts an acquire after a first publish, fails its
compare-exchange while the writer is inside a second publish, succeeds afterwards and
holds `data[0]`, and the writer then starts a third publish into `data[1]`. -/
theorem reader_slot_disjoint_witness :
    ∃ s, (RMSys.init (0 : Nat)).run
        [.assign 7, .writer, .writer, .writer, .reader 0 false, .reader 0 false, .writer,
         .reader 0 false, .writer, .writer, .reader 0 true, .reader 0 false, .writer]
        = some s ∧
      s.rpc 0 = .holding 0 ∧ s.wpc = .copying 1 ∧ s.obj.control = 3 ∧
      (0 = (s.obj.control &&& INDEX_BIT) ^^^ 1 ∧ 0 ≠ s.obj.control &&& INDEX_BIT ∧
        ∀ widx, (s.wpc = .copying widx ∨ s.wpc = .storing widx) →
          widx = s.obj.control &&& INDEX_BIT ∧ widx ≠ 0) := by
  refine ⟨_, rfl, rfl, rfl, rfl, ?_⟩
  exact reader_slot_disjoint (0 : Nat)
    [.assign 7, .writer, .writer, .writer, .reader 0 false, .reader 0 false, .writer,
     .reader 0 false, .writer, .writer, .reader 0 true, .reader 0 false, .writer]
    _ rfl 0 0 rfl

/-! ## Lemmas: `NonRealtimeMutatable` -/

theorem quiet_construct {T : Type} (a : Nat) (obj : T) (ha : a ≠ 0) :
    (NonRealtimeMutatable.construct a obj).Quiet where
  owned := ha
  live := ⟨obj, by simp [NonRealtimeMutatable.construct]⟩
  ptr := Or.inl rfl
  unlocked := rfl
  nocopy := rfl

theorem fresh_ne_storage {T : Type} {s : NonRealtimeMutatable T} {a : Nat} (hq : s.Quiet)
    (ha : s.Fresh a) : a ≠ s.storage := by
  intro h
  obtain ⟨v, hv⟩ := hq.live
  rw [← h, ha.2] at hv
  exact Option.noConfusion hv

theorem acquire_quiet {T : Type} {s : NonRealtimeMutatable T} {v : T} (a : Nat) (hq : s.Quiet)
    (hv : s.heap s.storage = some v) :
    s.nonRealtimeAcquire a = some { s with heap := Function.update s.heap a (some v),
                                           locked := true, copy := a } := by
  simp [NonRealtimeMutatable.nonRealtimeAcquire, NonRealtimeMutatable.resetCopy, hq.unlocked,
    hq.nocopy, hv]

theorem read_quiet {T : Type} {s : NonRealtimeMutatable T} {v : T} (hp : s.pointer ≠ 0)
    (hv : s.heap s.pointer = some v) :
    s.realtimeAcquire = some (v, { s with currentObj := s.pointer, pointer := 0 }) := by
  simp [NonRealtimeMutatable.realtimeAcquire, hp, hv]

/-- Publishing a staged cell: from a state in which the mutex is held, `pointer` designates
the cell of `storage` and `copy` owns a different allocated cell holding `x`, the loop of
`nonRealtimeRelease` exits in its first iteration and leaves a quiet state that publishes
`x`. -/
theorem release_staged {T : Type} (s : NonRealtimeMutatable T) (fuel : Nat) (x : T)
    (hptr : s.pointer = s.storage) (hc0 : s.copy ≠ 0) (hcs : s.copy ≠ s.storage)
    (hx : s.heap s.copy = some x) :
    ∃ s1, s.nonRealtimeRelease (fuel + 1) = some s1 ∧ s1.Quiet ∧ s1.pointer ≠ 0 ∧
      s1.pointer = s.copy ∧ s1.storage = s.copy ∧ s1.heap s1.pointer = some x := by
  have hrel : s.nonRealtimeRelease (fuel + 1) =
      some (NonRealtimeMutatable.moveCopyAndUnlock { s with pointer := s.copy }) := by
    simp only [NonRealtimeMutatable.nonRealtimeRelease, NonRealtimeMutatable.releaseLoop,
      NonRealtimeMutatable.releaseAttempt, hptr, and_self, if_true, Option.map_some']
  have hh : (if s.storage = 0 then s.heap else Function.update s.heap s.storage none) s.copy
      = some x := by
    split
    · exact hx
    · rw [Function.update_noteq hcs]
      exact hx
  exact ⟨_, hrel, ⟨hc0, ⟨x, hh⟩, Or.inl rfl, rfl, rfl⟩, hc0, rfl, rfl, hh⟩

theorem quiet_pointer {T : Type} {s : NonRealtimeMutatable T} (hq : s.Quiet)
    (hp : s.pointer ≠ 0) : s.pointer = s.storage := by
  rcases hq.ptr with h | h
  · exact h
  · exact absurd h.1 hp

theorem modify_frame {T : Type} (fs : List (T → T)) :
    ∀ t : NonRealtimeMutatable T, t.copy ≠ t.pointer →
      (fs.foldl NonRealtimeMutatable.modifyCopy t).pointer = t.pointer ∧
      (fs.foldl NonRealtimeMutatable.modifyCopy t).copy = t.copy ∧
      (fs.foldl NonRealtimeMutatable.modifyCopy t).storage = t.storage ∧
      (fs.foldl NonRealtimeMutatable.modifyCopy t).heap t.pointer = t.heap t.pointer := by
  induction fs with
  | nil => intro t _; exact ⟨rfl, rfl, rfl, rfl⟩
  | cons f fs ih =>
    intro t hne
    obtain ⟨h1, h2, h3, h4⟩ := ih (t.modifyCopy f) hne
    refine ⟨h1, h2, h3, ?_⟩
    have h5 : (t.modifyCopy f).heap t.pointer = t.heap t.pointer := by
      simp only [NonRealtimeMutatable.modifyCopy]
      exact Function.update_noteq (Ne.symm hne) _ _
    rw [← h5]
    exact h4

theorem releaseLoop_some {T : Type} (fuel : Nat) (s s1 : NonRealtimeMutatable T)
    (h : NonRealtimeMutatable.releaseLoop fuel s = some s1) :
    s.pointer = s.storage ∧ s1 = { s with pointer := s.copy } := by
  induction fuel with
  | zero => exact Option.noConfusion h
  | succ n ih =>
    by_cases hp : s.pointer = s.storage
    · simp only [NonRealtimeMutatable.releaseLoop, NonRealtimeMutatable.releaseAttempt, hp,
        and_self, if_true, Option.some.injEq] at h
      exact ⟨hp, h.symm⟩
    · simp only [NonRealtimeMutatable.releaseLoop, NonRealtimeMutatable.releaseAttempt, hp,
        false_and, if_false, Bool.false_eq_true] at h
      exact ih h

theorem releaseLoop_spins {T : Type} (fuel : Nat) (s : NonRealtimeMutatable T)
    (hp : s.pointer ≠ s.storage) : NonRealtimeMutatable.releaseLoop fuel s = none := by
  induction fuel with
  | zero => rfl
  | succ n ih =>
    simp only [NonRealtimeMutatable.releaseLoop, NonRealtimeMutatable.releaseAttempt, hp,
      false_and, if_false, Bool.false_eq_true]
    exact ih

theorem consistent_construct {T : Type} (a : Nat) (obj : T) (ha : a ≠ 0) :
    (NonRealtimeMutatable.construct a obj).Consistent where
  owned := ha
  live := ⟨obj, by simp [NonRealtimeMutatable.construct]⟩
  ptr := Or.inl rfl
  staged := fun h => Bool.noConfusion h
  idle := fun _ => rfl

theorem consistent_pointer {T : Type} (s : NonRealtimeMutatable T) (h : s.Consistent) :
    s.pointer = s.storage ∨ s.pointer = 0 := by
  rcases h.ptr with hp | hp
  · exact Or.inl hp
  · exact Or.inr hp.1

theorem consistent_realtimeAcquire {T : Type} (s s1 : NonRealtimeMutatable T) (v : T)
    (h : s.Consistent) (hs : s.realtimeAcquire = some (v, s1)) : s1.Consistent := by
  unfold NonRealtimeMutatable.realtimeAcquire at hs
  by_cases hp : s.pointer = 0
  · simp [hp] at hs
  · simp only [hp, if_false] at hs
    cases hh : s.heap s.pointer with
    | none => simp [hh] at hs
    | some x =>
      simp only [hh, Option.some.injEq, Prod.mk.injEq] at hs
      have hps : s.pointer = s.storage := by
        rcases h.ptr with h1 | h1
        · exact h1
        · exact absurd h1.1 hp
      rw [← hs.2]
      exact ⟨h.owned, h.live, Or.inr ⟨rfl, hps⟩, h.staged, h.idle⟩

theorem consistent_realtimeRelease {T : Type} (s s1 : NonRealtimeMutatable T)
    (h : s.Consistent) (hs : s.realtimeRelease = some s1) : s1.Consistent := by
  unfold NonRealtimeMutatable.realtimeRelease at hs
  by_cases hp : s.pointer = 0
  · simp only [hp, if_true, Option.some.injEq] at hs
    have hcur : s.currentObj = s.storage := by
      rcases h.ptr with h1 | h1
      · exact absurd (h1.symm.trans hp) h.owned
      · exact h1.2
    rw [← hs]
    exact ⟨h.owned, h.live, Or.inl hcur, h.staged, h.idle⟩
  · simp [hp] at hs

theorem consistent_nonRealtimeAcquire {T : Type} (s s1 : NonRealtimeMutatable T) (a : Nat)
    (h : s.Consistent) (ha : s.Fresh a) (hs : s.nonRealtimeAcquire a = some s1) :
    s1.Consistent := by
  obtain ⟨v, hv⟩ := h.live
  unfold NonRealtimeMutatable.nonRealtimeAcquire at hs
  cases hl : s.locked with
  | true => simp [hl] at hs
  | false =>
    have hne : a ≠ s.storage := by
      intro hc
      rw [← hc, ha.2] at hv
      exact Option.noConfusion hv
    simp only [hl, Bool.false_eq_true, if_false, hv, Option.some.injEq,
      NonRealtimeMutatable.resetCopy, h.idle hl, if_true] at hs
    rw [← hs]
    refine ⟨h.owned, ⟨v, ?_⟩, h.ptr, fun _ => ⟨ha.1, hne, v, ?_⟩, fun hc => Bool.noConfusion hc⟩
    · show Function.update s.heap a (some v) s.storage = some v
      rw [Function.update_noteq (Ne.symm hne)]
      exact hv
    · show Function.update s.heap a (some v) a = some v
      exact Function.update_same _ _ _

theorem consistent_modifyCopy {T : Type} (s : NonRealtimeMutatable T) (f : T → T)
    (h : s.Consistent) : (s.modifyCopy f).Consistent := by
  obtain ⟨v, hv⟩ := h.live
  have hne : s.storage ≠ s.copy := by
    cases hl : s.locked with
    | true => exact Ne.symm (h.staged hl).2.1
    | false =>
      rw [h.idle hl]
      exact h.owned
  refine ⟨h.owned, ⟨v, ?_⟩, h.ptr, ?_, h.idle⟩
  · show Function.update s.heap s.copy ((s.heap s.copy).map f) s.storage = some v
    rw [Function.update_noteq hne]
    exact hv
  · intro hl
    obtain ⟨h1, h2, x, hx⟩ := h.staged hl
    refine ⟨h1, h2, f x, ?_⟩
    show Function.update s.heap s.copy ((s.heap s.copy).map f) s.copy = some (f x)
    rw [Function.update_same, hx]
    rfl

theorem consistent_nonRealtimeRelease {T : Type} (s s1 : NonRealtimeMutatable T) (fuel : Nat)
    (h : s.Consistent) (hl : s.locked = true) (hs : s.nonRealtimeRelease fuel = some s1) :
    s1.Consistent ∧ s1.pointer = s.copy ∧ s1.storage = s.copy := by
  obtain ⟨h1, h2, x, hx⟩ := h.staged hl
  unfold NonRealtimeMutatable.nonRealtimeRelease at hs
  cases hloop : NonRealtimeMutatable.releaseLoop fuel s with
  | none => simp [hloop] at hs
  | some s2 =>
    obtain ⟨_, hs2⟩ := releaseLoop_some fuel s s2 hloop
    simp only [hloop, Option.map_some', Option.some.injEq] at hs
    rw [← hs, hs2]
    refine ⟨⟨h1, ⟨x, ?_⟩, Or.inl rfl, fun hc => Bool.noConfusion hc, fun _ => rfl⟩, rfl, rfl⟩
    show (if s.storage = 0 then s.heap else Function.update s.heap s.storage none) s.copy
      = some x
    rw [if_neg h.owned, Function.update_noteq h2]
    exact hx

theorem consistent_nonRealtimeReplace {T : Type} (s s1 : NonRealtimeMutatable T)
    (a fuel : Nat) (w : T) (h : s.Consistent) (ha : s.Fresh a)
    (hs : s.nonRealtimeReplace a fuel w = some s1) : s1.Consistent := by
  obtain ⟨v, hv⟩ := h.live
  unfold NonRealtimeMutatable.nonRealtimeReplace at hs
  cases hl : s.locked with
  | true => simp [hl] at hs
  | false =>
    have hne : a ≠ s.storage := by
      intro hc
      rw [← hc, ha.2] at hv
      exact Option.noConfusion hv
    simp only [hl, Bool.false_eq_true, if_false] at hs
    have hmid : (NonRealtimeMutatable.resetCopy { s with locked := true } a w).Consistent := by
      simp only [NonRealtimeMutatable.resetCopy, h.idle hl, if_true]
      refine ⟨h.owned, ⟨v, ?_⟩, h.ptr, fun _ => ⟨ha.1, hne, w, ?_⟩,
        fun hc => Bool.noConfusion hc⟩
      · show Function.update s.heap a (some w) s.storage = some v
        rw [Function.update_noteq (Ne.symm hne)]
        exact hv
      · show Function.update s.heap a (some w) a = some w
        exact Function.update_same _ _ _
    exact (consistent_nonRealtimeRelease _ s1 fuel hmid rfl hs).1

theorem attempt_publishes {T : Type} (s : NonRealtimeMutatable T) (h : s.Consistent)
    (hl : s.locked = true) (hp : s.pointer = s.storage) :
    s.releaseAttempt false = (true, { s with pointer := s.copy }) ∧
    (s.releaseAttempt false).2.pointer = s.copy ∧
    (s.releaseAttempt false).2.storage = s.storage ∧
    (s.releaseAttempt false).2.pointer ≠ (s.releaseAttempt false).2.storage ∧
    (s.releaseAttempt false).2.pointer ≠ 0 := by
  obtain ⟨h1, h2, _⟩ := h.staged hl
  have hat : s.releaseAttempt false = (true, { s with pointer := s.copy }) := by
    simp only [NonRealtimeMutatable.releaseAttempt, hp, and_self, if_true]
  rw [hat]
  exact ⟨rfl, rfl, rfl, h2, h1⟩

theorem loop_first_iteration {T : Type} (s : NonRealtimeMutatable T) (fuel : Nat)
    (hp : s.pointer = s.storage) :
    s.releaseAttempt false = (true, { s with pointer := s.copy }) ∧
    NonRealtimeMutatable.releaseLoop (fuel + 1) s = some { s with pointer := s.copy } ∧
    ∃ s1, s.nonRealtimeRelease (fuel + 1) = some s1 ∧ s1.pointer = s.copy ∧
      s1.storage = s.copy := by
  have hat : s.releaseAttempt false = (true, { s with pointer := s.copy }) := by
    simp only [NonRealtimeMutatable.releaseAttempt, hp, and_self, if_true]
  have hloop : NonRealtimeMutatable.releaseLoop (fuel + 1) s
      = some { s with pointer := s.copy } := by
    simp only [NonRealtimeMutatable.releaseLoop, hat, if_true]
  refine ⟨hat, hloop, NonRealtimeMutatable.moveCopyAndUnlock { s with pointer := s.copy },
    ?_, rfl, rfl⟩
  simp only [NonRealtimeMutatable.nonRealtimeRelease, hloop, Option.map_some']

/-! ## Theorems: `NonRealtimeMutatable` -/

/-- C3: from every state of a `NonRealtimeMutatable` in which no access is outstanding
(`pointer` is non-null, the mutex is free), a realtime read sees the published value `v`;
a complete non-realtime write with any modification `f` of the clone terminates and the
next `realtimeAcquire` returns `f v`; `nonRealtimeReplace` with `w` terminates and the next
`realtimeAcquire` returns `w`. -/
theorem write_visible_to_next_read {T : Type} (s : NonRealtimeMutatable T) (a fuel : Nat)
    (hq : s.Quiet) (hp : s.pointer ≠ 0) (ha : s.Fresh a) :
    ∃ v r, s.realtimeAcquire = some (v, r) ∧
      (∀ f : T → T, ∃ s1 r1, s.nonRealtimeWrite a (fuel + 1) f = some s1 ∧
        s1.realtimeAcquire = some (f v, r1)) ∧
      (∀ w : T, ∃ s2 r2, s.nonRealtimeReplace a (fuel + 1) w = some s2 ∧
        s2.realtimeAcquire = some (w, r2)) := by
  obtain ⟨v, hv⟩ := hq.live
  have hptr := quiet_pointer hq hp
  have hne := fresh_ne_storage hq ha
  have hread : s.heap s.pointer = some v := by rw [hptr]; exact hv
  refine ⟨v, _, read_quiet hp hread, ?_, ?_⟩
  · intro f
    obtain ⟨s1, h1, _, hp1, _, _, hx1⟩ := release_staged
      (NonRealtimeMutatable.modifyCopy
        { s with heap := Function.update s.heap a (some v), locked := true, copy := a } f)
      fuel (f v) hptr ha.1 hne (by simp [NonRealtimeMutatable.modifyCopy])
    refine ⟨s1, _, ?_, read_quiet hp1 hx1⟩
    simp only [NonRealtimeMutatable.nonRealtimeWrite, acquire_quiet a hq hv]
    exact h1
  · intro w
    obtain ⟨s2, h2, _, hp2, _, _, hx2⟩ := release_staged
      (NonRealtimeMutatable.resetCopy { s with locked := true } a w)
      fuel w hptr ha.1 hne (by simp [NonRealtimeMutatable.resetCopy, hq.nocopy])
    refine ⟨s2, _, ?_, read_quiet hp2 hx2⟩
    simp only [NonRealtimeMutatable.nonRealtimeReplace, hq.unlocked, Bool.false_eq_true,
      if_false]
    exact h2

/-- Scenario of test.cpp: published `{1, 0, 0, 0, 0}`, the writer sets `b0 = b1 = 0.5`
through `ScopedAccess<false>`, the next realtime read sees `{0.5, 0.5, 0, 0, 0}`. -/
theorem write_visible_to_next_read_witness :
    ((NonRealtimeMutatable.construct 1 (BiquadCoeffs.mk 1 0 0 0 0)).Quiet ∧
      (NonRealtimeMutatable.construct 1 (BiquadCoeffs.mk 1 0 0 0 0)).pointer ≠ 0 ∧
      (NonRealtimeMutatable.construct 1 (BiquadCoeffs.mk 1 0 0 0 0)).Fresh 2) ∧
    (∃ s1 r1,
      (NonRealtimeMutatable.construct 1 (BiquadCoeffs.mk 1 0 0 0 0)).nonRealtimeWrite 2 1
        (fun c => { c with b0 := 1 / 2, b1 := 1 / 2 }) = some s1 ∧
      s1.realtimeAcquire = some (BiquadCoeffs.mk (1 / 2) (1 / 2) 0 0 0, r1)) := by
  have hq := quiet_construct 1 (BiquadCoeffs.mk 1 0 0 0 0) (by decide)
  have hp : (NonRealtimeMutatable.construct 1 (BiquadCoeffs.mk 1 0 0 0 0)).pointer ≠ 0 := by
    decide
  have ha : (NonRealtimeMutatable.construct 1 (BiquadCoeffs.mk 1 0 0 0 0)).Fresh 2 :=
    ⟨by decide, by simp [NonRealtimeMutatable.construct]⟩
  refine ⟨⟨hq, hp, ha⟩, ?_⟩
  obtain ⟨v, r, hv, hw, _⟩ := write_visible_to_next_read _ 2 0 hq hp ha
  have hv1 : v = BiquadCoeffs.mk 1 0 0 0 0 := by
    simp [NonRealtimeMutatable.realtimeAcquire, NonRealtimeMutatable.construct] at hv
    exact hv.1.symm
  subst hv1
  exact hw (fun c => { c with b0 := 1 / 2, b1 := 1 / 2 })

/-- C6: from every state of a `NonRealtimeMutatable` with no access outstanding,
`nonRealtimeAcquire` succeeds and the clone it returns holds the published value `v`; and
after any sequence of modifications of the clone, with `nonRealtimeRelease` not yet called,
the atomic `pointer` and `storage` are unchanged and a `realtimeAcquire` at that moment
still returns `v`. -/
theorem staged_write_invisible {T : Type} (s : NonRealtimeMutatable T) (a : Nat)
    (hq : s.Quiet) (hp : s.pointer ≠ 0) (ha : s.Fresh a) :
    ∃ v r s1, s.realtimeAcquire = some (v, r) ∧ s.nonRealtimeAcquire a = some s1 ∧
      s1.heap s1.copy = some v ∧
      ∀ fs : List (T → T),
        (fs.foldl NonRealtimeMutatable.modifyCopy s1).pointer = s.pointer ∧
        (fs.foldl NonRealtimeMutatable.modifyCopy s1).storage = s.storage ∧
        ((fs.foldl NonRealtimeMutatable.modifyCopy s1).realtimeAcquire).map Prod.fst
          = some v := by
  obtain ⟨v, hv⟩ := hq.live
  have hptr := quiet_pointer hq hp
  have hne := fresh_ne_storage hq ha
  have hread : s.heap s.pointer = some v := by rw [hptr]; exact hv
  refine ⟨v, _, _, read_quiet hp hread, acquire_quiet a hq hv, by simp, ?_⟩
  intro fs
  have hne2 : a ≠ s.pointer := by rw [hptr]; exact hne
  obtain ⟨h1, _, h3, h4⟩ := modify_frame fs
    { s with heap := Function.update s.heap a (some v), locked := true, copy := a } hne2
  simp only at h1 h3 h4
  rw [Function.update_noteq (Ne.symm hne2), hread] at h4
  refine ⟨h1, h3, ?_⟩
  have h5 : (List.foldl NonRealtimeMutatable.modifyCopy
      { s with heap := Function.update s.heap a (some v), locked := true, copy := a }
      fs).pointer ≠ 0 := by rw [h1]; exact hp
  have h6 : (List.foldl NonRealtimeMutatable.modifyCopy
      { s with heap := Function.update s.heap a (some v), locked := true, copy := a }
      fs).heap (List.foldl NonRealtimeMutatable.modifyCopy
      { s with heap := Function.update s.heap a (some v), locked := true, copy := a }
      fs).pointer = some v := by rw [h1]; exact h4
  rw [read_quiet h5 h6]
  rfl

/-- Published `{1, 0, 0, 0, 0}`: after `nonRealtimeAcquire` and the two assignments
`b0 = 0.5`, `b1 = 0.5` to the clone, a realtime read still sees `{1, 0, 0, 0, 0}`. -/
theorem staged_write_invisible_witness :
    ((NonRealtimeMutatable.construct 1 (BiquadCoeffs.mk 1 0 0 0 0)).Quiet ∧
      (NonRealtimeMutatable.construct 1 (BiquadCoeffs.mk 1 0 0 0 0)).pointer ≠ 0 ∧
      (NonRealtimeMutatable.construct 1 (BiquadCoeffs.mk 1 0 0 0 0)).Fresh 2) ∧
    (∃ s1, (NonRealtimeMutatable.construct 1 (BiquadCoeffs.mk 1 0 0 0 0)).nonRealtimeAcquire 2
        = some s1 ∧
      s1.heap s1.copy = some (BiquadCoeffs.mk 1 0 0 0 0) ∧
      (([fun c => { c with b0 := 1 / 2 }, fun c => { c with b1 := 1 / 2 }].foldl
        NonRealtimeMutatable.modifyCopy s1).realtimeAcquire).map Prod.fst
          = some (BiquadCoeffs.mk 1 0 0 0 0)) := by
  have hq := quiet_construct 1 (BiquadCoeffs.mk 1 0 0 0 0) (by decide)
  have hp : (NonRealtimeMutatable.construct 1 (BiquadCoeffs.mk 1 0 0 0 0)).pointer ≠ 0 := by
    decide
  have ha : (NonRealtimeMutatable.construct 1 (BiquadCoeffs.mk 1 0 0 0 0)).Fresh 2 :=
    ⟨by decide, by simp [NonRealtimeMutatable.construct]⟩
  refine ⟨⟨hq, hp, ha⟩, ?_⟩
  obtain ⟨v, r, s1, hv, hs1, hc, hall⟩ := staged_write_invisible _ 2 hq hp ha
  have hv1 : v = BiquadCoeffs.mk 1 0 0 0 0 := by
    simp [NonRealtimeMutatable.realtimeAcquire, NonRealtimeMutatable.construct] at hv
    exact hv.1.symm
  subst hv1
  exact ⟨s1, hs1, hc, (hall _).2.2⟩

/-- C10: the destructor's assertions pass exactly when `pointer` is non-null and the mutex
is not held; and destroying the object after a `realtimeAcquire` that has not been matched
by a `realtimeRelease` fails the assertion on `pointer`. -/
theorem destructor_asserts {T : Type} :
    (∀ s : NonRealtimeMutatable T,
      s.destructor = .destroyed ↔ (s.pointer ≠ 0 ∧ s.locked = false)) ∧
    (∀ (s s1 : NonRealtimeMutatable T) (v : T),
      s.realtimeAcquire = some (v, s1) → s1.destructor = .pointerAssertFailed) := by
  constructor
  · intro s
    unfold NonRealtimeMutatable.destructor
    by_cases hp : s.pointer = 0
    · simp [hp]
    · cases hl : s.locked <;> simp [hp, hl]
  · intro s s1 v h
    unfold NonRealtimeMutatable.realtimeAcquire at h
    by_cases hp : s.pointer = 0
    · simp [hp] at h
    · simp only [hp, if_false] at h
      cases hh : s.heap s.pointer with
      | none => simp [hh] at h
      | some x =>
        simp only [hh, Option.some.injEq, Prod.mk.injEq] at h
        rw [← h.2]
        rfl

/-- An object constructed at address `1` can be destroyed; after a `realtimeAcquire` without
release its destruction fails the assertion on `pointer`; while a non-realtime access is
open it fails the assertion on the mutex. -/
theorem destructor_asserts_witness :
    (NonRealtimeMutatable.construct 1 (5 : Nat)).destructor = .destroyed ∧
    (∃ s1, (NonRealtimeMutatable.construct 1 (5 : Nat)).realtimeAcquire = some (5, s1) ∧
      s1.destructor = .pointerAssertFailed) ∧
    ((NonRealtimeMutatable.construct 1 (5 : Nat)).nonRealtimeAcquire 2).map
      (fun r => r.destructor) = some .lockAssertFailed := by
  refine ⟨?_, ⟨_, rfl, ?_⟩, ?_⟩
  · exact (destructor_asserts.1 _).2 ⟨by decide, rfl⟩
  · exact destructor_asserts.2 (NonRealtimeMutatable.construct 1 (5 : Nat)) _ 5 rfl
  · simp [NonRealtimeMutatable.nonRealtimeAcquire, NonRealtimeMutatable.construct,
      NonRealtimeMutatable.destructor, NonRealtimeMutatable.resetCopy]

/-- C12, as the claim states it, fails: after construction at address `1`, a
`nonRealtimeAcquire` whose clone is at address `2`, and the successful compare-exchange of
`nonRealtimeRelease`, `pointer` is `2` while `storage` still owns the cell at `1`: `pointer`
is neither the address of the storage cell nor null until `copy` is moved into `storage`. -/
theorem pointer_invariant_counterexample :
    ∃ s1, (NonRealtimeMutatable.construct 1 (5 : Nat)).nonRealtimeAcquire 2 = some s1 ∧
      (s1.releaseAttempt false).1 = true ∧
      (s1.releaseAttempt false).2.pointer = 2 ∧
      (s1.releaseAttempt false).2.storage = 1 ∧
      ¬ ((s1.releaseAttempt false).2.pointer = (s1.releaseAttempt false).2.storage ∨
        (s1.releaseAttempt false).2.pointer = 0) := by
  refine ⟨_, rfl, rfl, rfl, rfl, ?_⟩
  decide

/-- C12, amended: `pointer` is the address of the cell owned by `storage`, or null, after
construction and after each of `realtimeAcquire`, `realtimeRelease`, `nonRealtimeAcquire`,
a modification of the clone, `nonRealtimeRelease` and `nonRealtimeReplace` executed as a
whole within its precondition (stated through `Consistent`, which all of them keep).
Inside `nonRealtimeRelease`, between the successful compare-exchange and the move of `copy`
into `storage`, `pointer` is instead the address of the staged cell owned by `copy`, which
is neither the storage cell nor null. -/
theorem pointer_invariant_between_ops {T : Type} :
    (∀ (a : Nat) (obj : T), a ≠ 0 → (NonRealtimeMutatable.construct a obj).Consistent) ∧
    (∀ s : NonRealtimeMutatable T, s.Consistent → s.pointer = s.storage ∨ s.pointer = 0) ∧
    (∀ (s s1 : NonRealtimeMutatable T) (v : T), s.Consistent →
      s.realtimeAcquire = some (v, s1) → s1.Consistent) ∧
    (∀ s s1 : NonRealtimeMutatable T, s.Consistent →
      s.realtimeRelease = some s1 → s1.Consistent) ∧
    (∀ (s s1 : NonRealtimeMutatable T) (a : Nat), s.Consistent → s.Fresh a →
      s.nonRealtimeAcquire a = some s1 → s1.Consistent) ∧
    (∀ (s : NonRealtimeMutatable T) (f : T → T), s.Consistent → (s.modifyCopy f).Consistent) ∧
    (∀ (s s1 : NonRealtimeMutatable T) (fuel : Nat), s.Consistent → s.locked = true →
      s.nonRealtimeRelease fuel = some s1 → s1.Consistent) ∧
    (∀ (s s1 : NonRealtimeMutatable T) (a fuel : Nat) (w : T), s.Consistent → s.Fresh a →
      s.nonRealtimeReplace a fuel w = some s1 → s1.Consistent) ∧
    (∀ s : NonRealtimeMutatable T, s.Consistent → s.locked = true → s.pointer = s.storage →
      (s.releaseAttempt false).1 = true ∧
      (s.releaseAttempt false).2.pointer = s.copy ∧
      (s.releaseAttempt false).2.storage = s.storage ∧
      (s.releaseAttempt false).2.pointer ≠ (s.releaseAttempt false).2.storage ∧
      (s.releaseAttempt false).2.pointer ≠ 0) := by
  refine ⟨consistent_construct, consistent_pointer,
    fun s s1 v h hs => consistent_realtimeAcquire s s1 v h hs,
    fun s s1 h hs => consistent_realtimeRelease s s1 h hs,
    fun s s1 a h ha hs => consistent_nonRealtimeAcquire s s1 a h ha hs,
    fun s f h => consistent_modifyCopy s f h,
    fun s s1 fuel h hl hs => (consistent_nonRealtimeRelease s s1 fuel h hl hs).1,
    fun s s1 a fuel w h ha hs => consistent_nonRealtimeReplace s s1 a fuel w h ha hs, ?_⟩
  intro s h hl hp
  obtain ⟨h1, h2, h3, h4, h5⟩ := attempt_publishes s h hl hp
  exact ⟨by rw [h1], h2, h3, h4, h5⟩

/-- An object constructed at address `1`: after `nonRealtimeReplace` with the new cell at
address `2`, `pointer` and `storage` both are `2`. -/
theorem pointer_invariant_between_ops_witness :
    (1 ≠ 0 ∧ (NonRealtimeMutatable.construct 1 (5 : Nat)).Fresh 2) ∧
    (NonRealtimeMutatable.construct 1 (5 : Nat)).Consistent ∧
    ∃ s1, (NonRealtimeMutatable.construct 1 (5 : Nat)).nonRealtimeReplace 2 1 9 = some s1 ∧
      s1.Consistent ∧ (s1.pointer = s1.storage ∨ s1.pointer = 0) ∧ s1.pointer = 2 := by
  have ha : (NonRealtimeMutatable.construct 1 (5 : Nat)).Fresh 2 :=
    ⟨by decide, by simp [NonRealtimeMutatable.construct]⟩
  have h0 := (pointer_invariant_between_ops (T := Nat)).1 1 5 (by decide)
  refine ⟨⟨by decide, ha⟩, h0, _, rfl, ?_, ?_, rfl⟩
  · exact (pointer_invariant_between_ops (T := Nat)).2.2.2.2.2.2.2.1 _ _ 2 1 9 h0 ha rfl
  · exact Or.inl rfl

/-- C14: for `nonRealtimeRelease` entered with the mutex held and the clone staged, the
compare-exchange failing only on a value mismatch. If `pointer` holds the live cell, the
first iteration succeeds, the loop exits, and the call returns with `pointer` and `storage`
both designating the staged cell. While `pointer` is null every iteration fails and leaves
the object unchanged, so the loop spins for any number of iterations; `realtimeRelease`
then restores `pointer` without touching `storage` or `copy`, the first iteration after it
succeeds, and the call returns with `pointer` and `storage` both designating the staged
cell. -/
theorem release_loop_progress {T : Type} (s : NonRealtimeMutatable T) (hc : s.Consistent)
    (hl : s.locked = true) :
    (s.pointer = s.storage → ∀ fuel,
      s.releaseAttempt false = (true, { s with pointer := s.copy }) ∧
      NonRealtimeMutatable.releaseLoop (fuel + 1) s = some { s with pointer := s.copy } ∧
      ∃ s1, s.nonRealtimeRelease (fuel + 1) = some s1 ∧ s1.pointer = s.copy ∧
        s1.storage = s.copy ∧ s1.Consistent) ∧
    (s.pointer = 0 →
      (∀ spurious, s.releaseAttempt spurious = (false, s)) ∧
      (∀ fuel, NonRealtimeMutatable.releaseLoop fuel s = none) ∧
      ∃ s1, s.realtimeRelease = some s1 ∧ s1.pointer = s.storage ∧ s1.storage = s.storage ∧
        s1.copy = s.copy ∧
        s1.releaseAttempt false = (true, { s1 with pointer := s1.copy }) ∧
        ∀ fuel, ∃ s2, s1.nonRealtimeRelease (fuel + 1) = some s2 ∧ s2.pointer = s.copy ∧
          s2.storage = s.copy ∧ s2.Consistent) := by
  constructor
  · intro hp fuel
    obtain ⟨h1, h2, s1, h3, h4, h5⟩ := loop_first_iteration s fuel hp
    exact ⟨h1, h2, s1, h3, h4, h5, (consistent_nonRealtimeRelease s s1 _ hc hl h3).1⟩
  · intro hp
    have hne : s.pointer ≠ s.storage := by
      rw [hp]
      exact Ne.symm hc.owned
    have hcur : s.currentObj = s.storage := by
      rcases hc.ptr with h1 | h1
      · exact absurd h1 hne
      · exact h1.2
    have hrel : s.realtimeRelease = some { s with pointer := s.currentObj } := by
      simp only [NonRealtimeMutatable.realtimeRelease, hp, if_true]
    have hc1 := consistent_realtimeRelease s _ hc hrel
    refine ⟨?_, fun fuel => releaseLoop_spins fuel s hne, { s with pointer := s.currentObj },
      hrel, hcur, rfl, rfl, (loop_first_iteration _ 0 hcur).1, ?_⟩
    · intro spurious
      simp only [NonRealtimeMutatable.releaseAttempt, hne, false_and, if_false]
    · intro fuel
      obtain ⟨_, _, s2, h3, h4, h5⟩ := loop_first_iteration
        ({ s with pointer := s.currentObj } : NonRealtimeMutatable T) fuel hcur
      exact ⟨s2, h3, h4, h5, (consistent_nonRealtimeRelease _ s2 _ hc1 hl h3).1⟩

/-- The realtime thread holds the object constructed at address `1` when a writer stages its
clone at address `2`: the loop spins; after `realtimeRelease` one iteration publishes. -/
theorem release_loop_progress_witness :
    ∃ s1 s2, (NonRealtimeMutatable.construct 1 (5 : Nat)).realtimeAcquire = some (5, s1) ∧
      s1.nonRealtimeAcquire 2 = some s2 ∧
      (s2.Consistent ∧ s2.locked = true ∧ s2.pointer = 0) ∧
      (∀ fuel, NonRealtimeMutatable.releaseLoop fuel s2 = none) ∧
      ∃ s3, s2.realtimeRelease = some s3 ∧
        ∃ s4, s3.nonRealtimeRelease 1 = some s4 ∧ s4.pointer = 2 ∧ s4.storage = 2 := by
  have h0 := consistent_construct 1 (5 : Nat) (by decide)
  refine ⟨_, _, rfl, rfl, ?_⟩
  have h1 := consistent_realtimeAcquire _ _ 5 h0 rfl
  have h2 := consistent_nonRealtimeAcquire _ _ 2 h1
    ⟨by decide, by simp [NonRealtimeMutatable.construct]⟩ rfl
  obtain ⟨_, hspin, s3, hs3, _, _, _, _, hfin⟩ := (release_loop_progress _ h2 rfl).2 rfl
  obtain ⟨s4, hs4, hp4, hst4, _⟩ := hfin 0
  exact ⟨⟨h2, rfl, rfl⟩, hspin, s3, hs3, s4, hs4, hp4, hst4⟩

end farbot
